import Mathlib

/-!
Verification of the heox hybrid Monte-Carlo engine (`src/heox`).

This file gives a shallow embedding of the core of the repository:
the simulation `State` (`state.py`), the `Protocol` scheduling wrapper
(`protocol.py`), the canonical atom-swap protocol (`mc/mc.py`), the
on-lattice grand-canonical protocol (`mc/gcmc.py`) and the `Pipeline`
orchestrator (`pipeline.py`), together with theorems about the
testable properties stated in the design document.

Modelling conventions:
* Energies are exact rationals; the external calculator
  (`system["calculator"]` together with `calculate_potential_energy` /
  `calculate_relaxed_potential_energy`, which strip vacancy sites and
  call the opaque evaluator on a copy of the structure) is modelled as
  an oracle function `MSystem → ℚ`.  Both entry points read the state,
  never mutate it, which the oracle form makes literal.
* The process-global random stream is modelled by explicit oracle
  inputs: the successive `np.random.choice` pair draws of a swap
  attempt, the branch/species/site draws of a GCMC step, and the
  Boolean outcome of each Metropolis comparison.  Quantifying over the
  oracles covers every realisable random stream.
* The Metropolis criteria themselves (`_metropolis_criterion` in both
  protocols) are embedded separately over the reals, with the uniform
  draw in `[0,1)` as an explicit argument.
* A Python exception (the `np.random.choice` ValueError on a
  too-small population, `random.choice` on an empty sequence, or a
  failing `assert`) is modelled as the result `Option.none`.
* `AtomSwapMonteCarlo.step` ends with `state.update(modules={...})`,
  which raises `TypeError` against the checked-in `State.update`
  (it accepts only `system` and `properties`); since Python mutates
  the shared objects in place, the embedding of that call keeps the
  mutations made before the raise and tags the outcome with the
  exception (`ASMCStepOutcome`).
-/

/-! ## Boltzmann constant (ase.units: kB = _k / _e, in eV/K) -/

/-- CODATA Boltzmann constant `_k` in J/K, as in `ase.units`. -/
def ase_k : ℚ := 1.380649e-23

/-- CODATA elementary charge `_e` in C, as in `ase.units`. -/
def ase_e : ℚ := 1.602176634e-19

/-- Boltzmann constant in eV/K, `ase.units.kB = _k / _e`. -/
def kB : ℚ := ase_k / ase_e

/-! ## Metropolis criteria over the reals

`AtomSwapMonteCarlo._metropolis_criterion` (mc/mc.py):
if `delta_energy < 0` return `True`, otherwise accept when the uniform
draw is below `exp(-delta_energy / (kB * temperature))`.

`OnLatticeGCMC._metropolis_criterion` (mc/gcmc.py):
always accept when the uniform draw is below
`exp(-(delta_energy - chemical_potential) / temperature)` — note that
the source divides by `self.temperature` alone, with no `kB` factor.
-/

/-- Acceptance of `AtomSwapMonteCarlo._metropolis_criterion` given the
value `rand` of the uniform draw `np.random.rand()`. -/
def asmc_metropolis_criterion (temperature dE rand : ℝ) : Prop :=
  if dE < 0 then True
  else rand < Real.exp (-dE / ((kB : ℝ) * temperature))

/-- Acceptance of `OnLatticeGCMC._metropolis_criterion` given the value
`rand` of the uniform draw: the source computes the factor
`np.exp(-(delta_energy - chemical_potential) / (self.temperature))`,
dividing by the bare temperature with no Boltzmann constant. -/
def gcmc_metropolis_criterion (temperature dE mu rand : ℝ) : Prop :=
  rand < Real.exp (-(dE - mu) / temperature)

/-- Modelled from the spec: the acceptance rule the design document
prescribes for both protocols, `accept iff rand < min(1, exp(-(ΔE - μ)
/ (kB * T)))` with the draw uniform in `[0,1)`. -/
def spec_metropolis_acceptance (temperature dE mu rand : ℝ) : Prop :=
  rand < min 1 (Real.exp (-(dE - mu) / ((kB : ℝ) * temperature)))

/-! ## The simulation state (`state.py`)

`State.system` holds `positions`, `types`, `cell`, `pbc` and the
opaque `calculator`; only `positions` and `types` are ever read or
written by the protocols, so `cell` and `pbc` are omitted and the
calculator is the energy oracle passed to each operation.
`State.properties` holds `step`, `global_step`, `temperature` and the
cached `energy` (`None` when unknown).  `State.update` accepts exactly
the two optional keyword namespaces `system` and `properties`; a call
passing any other keyword — such as the `modules=` keyword that
`AtomSwapMonteCarlo.step` passes — raises `TypeError` (see
`ASMC_step`). -/

/-- The mutable `system` mapping of a `State`. -/
structure MSystem where
  positions : List (ℚ × ℚ × ℚ)
  types : List String
deriving DecidableEq

/-- The mutable `properties` mapping of a `State`. -/
structure MProperties where
  step : Nat
  global_step : Nat
  temperature : ℚ
  energy : Option ℚ
deriving DecidableEq

/-- The shared simulation `State`: exactly the two namespaces of
`state.py`. -/
structure MState where
  system : MSystem
  properties : MProperties
deriving DecidableEq

/-! ## List helpers shared by the protocols -/

/-- Index comprehension `[i for i, s in enumerate(l) if pred s]`,
with `n` the index of the head of `l`. -/
def indices_where (pred : String → Bool) : List String → Nat → List Nat
  | [], _ => []
  | a :: l, n =>
      if pred a then n :: indices_where pred l (n + 1)
      else indices_where pred l (n + 1)

/-- `random.choice(l)` given a draw `r`: uniform selection is modelled
by an arbitrary oracle natural reduced modulo the length; an empty
sequence raises `IndexError` (`none`). -/
def random_choice {α : Type} (l : List α) (r : Nat) : Option α :=
  l.get? (r % l.length)

/-- The sites currently labelled with the vacancy placeholder. -/
def vacancy_sites (types : List String) : List Nat :=
  indices_where (fun s => s == "X") types 0

/-! ## AtomSwapMonteCarlo (`mc/mc.py`) -/

/-- Attributes of an `AtomSwapMonteCarlo` instance: the `Protocol` base
fields (`invoke_every`, `steps_per_invoke`, `num_invokes`), the
protocol name, the simulation temperature, the list of swappable
types, and the per-run counters. -/
structure ASMCProto where
  name : String
  temperature : ℚ
  types : List String
  invoke_every : Nat
  steps_per_invoke : Nat
  num_invokes : Nat
  accepted_swaps : Nat
  rejected_swaps : Nat
deriving DecidableEq

/-- Random draws consumed by one `_attempt_atomswap` call: `pairs k`
is the `k`-th pair returned by
`np.random.choice(allowed_indices, size=2, replace=False)`, and
`accept` is the outcome of the `_metropolis_criterion` comparison
(embedded over the reals as `asmc_metropolis_criterion`). -/
structure SwapOracle where
  pairs : Nat → Nat × Nat
  accept : Bool

/-- The retry loop of `_attempt_atomswap`: starting from draw index
`k` with `fuel` remaining attempts, return the first drawn pair whose
labels differ, or `none` when the attempt budget is exhausted. -/
def swap_search (types : List String) (pairs : Nat → Nat × Nat) :
    Nat → Nat → Option (Nat × Nat)
  | _, 0 => none
  | k, fuel + 1 =>
      let ij := pairs k
      if types.get? ij.1 ≠ types.get? ij.2 then some ij
      else swap_search types pairs (k + 1) fuel

/-- `AtomSwapMonteCarlo._attempt_atomswap`.  `none` models an uncaught
exception: the `np.random.choice` ValueError when fewer than two
eligible indices exist, or the assertion that a rejected swap changed
the types.  Otherwise returns the updated protocol counters and state. -/
def ASMC_attempt_atomswap (o : SwapOracle) (calcE : MSystem → ℚ)
    (p : ASMCProto) (s : MState) : Option (ASMCProto × MState) :=
  let types := s.system.types
  let allowed_indices := indices_where (fun sym => p.types.contains sym) types 0
  if allowed_indices.length < 2 then
    none
  else
    match swap_search types o.pairs 0 100 with
    | none => some ({ p with rejected_swaps := p.rejected_swaps + 1 }, s)
    | some (i, j) =>
      let symbol_1 := types.getD i ""
      let symbol_2 := types.getD j ""
      let initial_energy :=
        match s.properties.energy with
        | some e => e
        | none => calcE s.system
      let attempt_types := (types.set i symbol_2).set j symbol_1
      let s1 : MState := { s with system := { s.system with types := attempt_types } }
      let final_energy := calcE s1.system
      if o.accept then
        some ({ p with accepted_swaps := p.accepted_swaps + 1 },
          { s1 with properties := { s1.properties with energy := some final_energy } })
      else if attempt_types = types then
        none
      else
        some ({ p with rejected_swaps := p.rejected_swaps + 1 },
          { s1 with
              system := { s1.system with types := types },
              properties := { s1.properties with energy := some initial_energy } })

/-- The outcome of an `AtomSwapMonteCarlo.step` call as checked in.
The method can never return normally: after `_attempt_atomswap` and
`self.num_invokes += 1` it calls `state.update(modules={"mc.asmc":
{...}})`, and the checked-in `State.update` (state.py) accepts only
the `system` and `properties` keywords, so that call raises
`TypeError`.  Python mutations made before the raise persist on the
shared objects, so `typeError` carries the protocol and state exactly
as the aborted call leaves them; `attemptError` is an exception
raised inside `_attempt_atomswap` itself (the `np.random.choice`
ValueError or the revert assertion). -/
inductive ASMCStepOutcome where
  | attemptError : ASMCStepOutcome
  | typeError (proto : ASMCProto) (state : MState) : ASMCStepOutcome
deriving DecidableEq

/-- `AtomSwapMonteCarlo.step`: one attempt, then `num_invokes += 1`,
then the counter export `state.update(modules=...)`, which raises
`TypeError` (see `ASMCStepOutcome`). -/
def ASMC_step (o : SwapOracle) (calcE : MSystem → ℚ)
    (p : ASMCProto) (s : MState) : ASMCStepOutcome :=
  match ASMC_attempt_atomswap o calcE p s with
  | none => ASMCStepOutcome.attemptError
  | some (p1, s1) =>
      ASMCStepOutcome.typeError { p1 with num_invokes := p1.num_invokes + 1 } s1

/-- A running `AtomSwapMonteCarlo` protocol together with the shared
state and the position `k` of the next per-step oracle in the global
random stream. -/
structure ASMCRun where
  proto : ASMCProto
  state : MState
  k : Nat
deriving DecidableEq

/-- The outcome of a `Protocol.evolve` call at the checked-in swap
protocol: `completed` means the call returned and advanced the shared
step counter; the two `raised` forms mean the inner step loop raised
and `evolve` aborted before the `properties["step"] += 1` line, with
`raisedTypeError` carrying the mutations the aborted call leaves
behind. -/
inductive ASMCEvolveOutcome where
  | completed (r : ASMCRun) : ASMCEvolveOutcome
  | raisedInAttempt : ASMCEvolveOutcome
  | raisedTypeError (r : ASMCRun) : ASMCEvolveOutcome
deriving DecidableEq

/-- `Protocol.evolve` (`protocol.py`) at the swap protocol: when the
shared `properties["step"]` counter is divisible by `invoke_every`,
run the `for _ in range(steps_per_invoke)` loop of `step` calls.
Since every `ASMC_step` raises, a firing call with
`steps_per_invoke ≥ 1` aborts at the loop's first iteration and the
remaining iterations never run; a non-firing call, or one with
`steps_per_invoke = 0`, performs no step call and completes with the
shared counter incremented. -/
def ASMC_evolve (stream : Nat → SwapOracle) (calcE : MSystem → ℚ)
    (r : ASMCRun) : ASMCEvolveOutcome :=
  if r.state.properties.step % r.proto.invoke_every == 0 then
    match r.proto.steps_per_invoke with
    | 0 =>
        ASMCEvolveOutcome.completed
          { r with state := { r.state with properties :=
              { r.state.properties with step := r.state.properties.step + 1 } } }
    | _ + 1 =>
        match ASMC_step (stream r.k) calcE r.proto r.state with
        | ASMCStepOutcome.attemptError => ASMCEvolveOutcome.raisedInAttempt
        | ASMCStepOutcome.typeError p1 s1 =>
            ASMCEvolveOutcome.raisedTypeError ⟨p1, s1, r.k + 1⟩
  else
    ASMCEvolveOutcome.completed
      { r with state := { r.state with properties :=
          { r.state.properties with step := r.state.properties.step + 1 } } }

/-! ## OnLatticeGCMC (`mc/gcmc.py`) -/

/-- Attributes of an `OnLatticeGCMC` instance.  The constructor stores
the chemical-potential dictionary and sets
`self.types = list(chemical_potentials.keys())` (see `GCMCProto.typesList`);
`removed_indices` is (re)assigned to the empty list by `initialize`. -/
structure GCMCProto where
  temperature : ℚ
  chemical_potentials : List (String × ℚ)
  use_relaxed_energies : Bool
  invoke_every : Nat
  steps_per_invoke : Nat
  num_invokes : Nat
  accepted_insertions : Nat
  rejected_insertions : Nat
  accepted_removals : Nat
  rejected_removals : Nat
  removed_indices : List Nat
deriving DecidableEq

/-- `self.types = list(chemical_potentials.keys())`. -/
def GCMCProto.typesList (p : GCMCProto) : List String :=
  p.chemical_potentials.map Prod.fst

/-- Random draws consumed by one `OnLatticeGCMC.step` call:
`branch_insert` is the outcome of `np.random.rand() < 0.5`, `species`
and `site` feed the two `random.choice` calls, and `accept` is the
outcome of the `_metropolis_criterion` comparison (embedded over the
reals as `gcmc_metropolis_criterion`). -/
structure GCMCOracle where
  branch_insert : Bool
  species : Nat
  site : Nat
  accept : Bool

/-- `OnLatticeGCMC.initialize`: raise a ValueError (`none`) unless the
tracked types are a subset of the state's types, then reset the
vacancy bookkeeping to the empty list. -/
def GCMC_init (p : GCMCProto) (s : MState) : Option GCMCProto :=
  if p.typesList.all (fun t => s.system.types.contains t) then
    some { p with removed_indices := [] }
  else
    none

/-- `OnLatticeGCMC._attempt_removal`.  `none` models an uncaught
exception (`random.choice` on an empty type list, or the assertion
that the tentative relabelling changed the types). -/
def GCMC_attempt_removal (o : GCMCOracle) (calcE relaxedCalcE : MSystem → ℚ)
    (p : GCMCProto) (s : MState) : Option (GCMCProto × MState) :=
  let types := s.system.types
  match random_choice p.typesList o.species with
  | none => none
  | some atomic_type =>
    let allowed_indices := indices_where (fun t => t == atomic_type) types 0
    if allowed_indices.isEmpty then
      some ({ p with rejected_removals := p.rejected_removals + 1 }, s)
    else
      match random_choice allowed_indices o.site with
      | none => none
      | some index =>
        let initial_energy :=
          match s.properties.energy with
          | some e => e
          | none => calcE s.system
        let attempt_types := types.set index "X"
        let s1 : MState := { s with system := { s.system with types := attempt_types } }
        let final_energy :=
          if p.use_relaxed_energies then relaxedCalcE s1.system else calcE s1.system
        if o.accept then
          some ({ p with
                    accepted_removals := p.accepted_removals + 1,
                    removed_indices := p.removed_indices ++ [index] },
            { s1 with properties := { s1.properties with energy := some final_energy } })
        else if attempt_types = types then
          none
        else
          some ({ p with rejected_removals := p.rejected_removals + 1 },
            { s1 with
                system := { s1.system with types := types },
                properties := { s1.properties with energy := some initial_energy } })

/-- `OnLatticeGCMC._attempt_insertion`.  `none` models an uncaught
exception as in `GCMC_attempt_removal`. -/
def GCMC_attempt_insertion (o : GCMCOracle) (calcE relaxedCalcE : MSystem → ℚ)
    (p : GCMCProto) (s : MState) : Option (GCMCProto × MState) :=
  let types := s.system.types
  match random_choice p.typesList o.species with
  | none => none
  | some atomic_type =>
    let allowed_indices := p.removed_indices
    if allowed_indices.isEmpty then
      some ({ p with rejected_insertions := p.rejected_insertions + 1 }, s)
    else
      match random_choice allowed_indices o.site with
      | none => none
      | some index =>
        let initial_energy :=
          match s.properties.energy with
          | some e => e
          | none => calcE s.system
        let attempt_types := types.set index atomic_type
        let s1 : MState := { s with system := { s.system with types := attempt_types } }
        let final_energy :=
          if p.use_relaxed_energies then relaxedCalcE s1.system else calcE s1.system
        if o.accept then
          some ({ p with
                    accepted_insertions := p.accepted_insertions + 1,
                    removed_indices := p.removed_indices.erase index },
            { s1 with properties := { s1.properties with energy := some final_energy } })
        else if attempt_types = types then
          none
        else
          some ({ p with rejected_insertions := p.rejected_insertions + 1 },
            { s1 with
                system := { s1.system with types := types },
                properties := { s1.properties with energy := some initial_energy } })

/-- `OnLatticeGCMC.step`: insertion or removal with equal probability,
then `num_invokes += 1`. -/
def GCMC_step (o : GCMCOracle) (calcE relaxedCalcE : MSystem → ℚ)
    (p : GCMCProto) (s : MState) : Option (GCMCProto × MState) :=
  match (if o.branch_insert then GCMC_attempt_insertion o calcE relaxedCalcE p s
         else GCMC_attempt_removal o calcE relaxedCalcE p s) with
  | none => none
  | some (p1, s1) => some ({ p1 with num_invokes := p1.num_invokes + 1 }, s1)

/-- A running `OnLatticeGCMC` protocol together with the shared state
and the position of the next per-step oracle in the global stream. -/
structure GCMCRun where
  proto : GCMCProto
  state : MState
  k : Nat
deriving DecidableEq

/-- One `step` call of a running grand-canonical protocol. -/
def GCMC_step_run (stream : Nat → GCMCOracle) (calcE relaxedCalcE : MSystem → ℚ)
    (r : GCMCRun) : Option GCMCRun :=
  match GCMC_step (stream r.k) calcE relaxedCalcE r.proto r.state with
  | none => none
  | some (p, s) => some ⟨p, s, r.k + 1⟩

/-- `n` consecutive `step` calls of the grand-canonical protocol. -/
def GCMC_steps (stream : Nat → GCMCOracle) (calcE relaxedCalcE : MSystem → ℚ) :
    Nat → GCMCRun → Option GCMCRun
  | 0, r => some r
  | n + 1, r =>
      match GCMC_step_run stream calcE relaxedCalcE r with
      | none => none
      | some r1 => GCMC_steps stream calcE relaxedCalcE n r1

/-- `Protocol.evolve` (`protocol.py`) instantiated at the
grand-canonical protocol, whose `step` is consistent with the
checked-in `State.update` and returns normally: when the shared
`properties["step"]` counter is divisible by `invoke_every`, run
`steps_per_invoke` inner steps; afterwards increment the shared
counter by one regardless. -/
def GCMC_evolve (stream : Nat → GCMCOracle) (calcE relaxedCalcE : MSystem → ℚ)
    (r : GCMCRun) : Option GCMCRun :=
  match (if r.state.properties.step % r.proto.invoke_every == 0 then
          GCMC_steps stream calcE relaxedCalcE r.proto.steps_per_invoke r
         else some r) with
  | none => none
  | some r1 =>
      some { r1 with state := { r1.state with
        properties := { r1.state.properties with step := r1.state.properties.step + 1 } } }

/-- `N` consecutive `evolve` calls on the same grand-canonical
protocol. -/
def GCMC_evolveN (stream : Nat → GCMCOracle) (calcE relaxedCalcE : MSystem → ℚ) :
    Nat → GCMCRun → Option GCMCRun
  | 0, r => some r
  | n + 1, r =>
      match GCMC_evolve stream calcE relaxedCalcE r with
      | none => none
      | some r1 => GCMC_evolveN stream calcE relaxedCalcE n r1

/-! ## Pipeline (`pipeline.py`) -/

/-- A module as the pipeline sees it: the scheduling attributes plus
its `step` action on the shared state.  Both concrete protocols
mutate only `system.types`, `properties.energy` and (for the swap
protocol) the `modules` namespace in their `step`; the `stepF`
abstraction carries that as an explicit hypothesis where needed. -/
structure PipeModule where
  invoke_every : Nat
  steps_per_invoke : Nat
  stepF : MState → MState

/-- `Protocol.evolve` (`protocol.py`) for a pipeline module: fire
`steps_per_invoke` inner steps when the shared `step` counter is
divisible by `invoke_every`, then increment the shared counter. -/
def protocol_evolve (m : PipeModule) (s : MState) : MState :=
  let s1 := if s.properties.step % m.invoke_every == 0 then
              m.stepF^[m.steps_per_invoke] s
            else s
  { s1 with properties := { s1.properties with step := s1.properties.step + 1 } }

/-- `Pipeline.run(steps)`: each outer iteration calls `evolve` on
every module in list order, then increments `global_step` (the
logging and trajectory output touch no counter). -/
def pipeline_run (mods : List PipeModule) : Nat → MState → MState
  | 0, s => s
  | n + 1, s =>
      let s1 := mods.foldl (fun acc m => protocol_evolve m acc) s
      pipeline_run mods n
        { s1 with properties := { s1.properties with global_step := s1.properties.global_step + 1 } }

/-! ## Pipeline logging validation (`pipeline.py`)

`Pipeline.__init__` stores the options and calls `initialize`, which
(after initialising the modules and collecting their
`_get_log_options` keys) prints the logging header and only then
checks each requested name against the collected dictionary.  The
header line indexes `BASE_LOGGING_OPTIONS_DICT` directly, so a name
outside the base set raises a KeyError there, before the `ValueError`
validation loop can run. -/

/-- A raised Python exception relevant to logging validation. -/
inductive PyErr where
  | keyError (key : String)
  | valueError (msg : String)
deriving DecidableEq

/-- `BASE_LOGGING_OPTIONS_DICT` from `pipeline.py`. -/
def BASE_LOGGING_OPTIONS_DICT : List (String × String) :=
  [("properties.global_step", "Global Step"),
   ("properties.step", "Step"),
   ("properties.energy", "Potential Energy"),
   ("properties.temperature", "Temperature")]

/-- The keys of `AtomSwapMonteCarlo._get_log_options` (its values are
the current counters; only the keys matter for validation). -/
def ASMC_get_log_options (p : ASMCProto) : List String :=
  ["module." ++ p.name ++ ".accepted_swaps",
   "module." ++ p.name ++ ".rejected_swaps"]

/-- `Pipeline._print_logging_header`: look every requested option up
in `BASE_LOGGING_OPTIONS_DICT` and join the titles with tabs; an
absent key raises `KeyError`. -/
def print_logging_header (log_options : List String) : Except PyErr String :=
  match log_options.mapM (fun opt =>
      match BASE_LOGGING_OPTIONS_DICT.lookup opt with
      | some title => Except.ok title
      | none => Except.error (PyErr.keyError opt)) with
  | Except.ok titles => Except.ok (String.intercalate "\t" titles)
  | Except.error e => Except.error e

/-- The validation loop at the end of `Pipeline.initialize`: raise a
`ValueError` naming the first requested option absent from the
collected dictionary. -/
def validate_log_options (dictKeys : List String) : List String → Except PyErr Unit
  | [] => Except.ok ()
  | opt :: rest =>
      if dictKeys.contains opt then validate_log_options dictKeys rest
      else Except.error (PyErr.valueError
        ("Invalid logging name: " ++ opt ++ ". Available options are: " ++ toString dictKeys))

/-- The logging part of `Pipeline.initialize`: `module_option_keys`
collects the `_get_log_options` keys of the modules; when the stored
`log_options` is truthy (not `None` and not empty) the header is
printed first and the validation loop runs afterwards. -/
def pipeline_initialize_logging (module_option_keys : List String)
    (log_options : Option (List String)) : Except PyErr Unit :=
  let dictKeys := (BASE_LOGGING_OPTIONS_DICT.map Prod.fst) ++ module_option_keys
  match log_options with
  | some (opt :: rest) =>
      match print_logging_header (opt :: rest) with
      | Except.error e => Except.error e
      | Except.ok _ => validate_log_options dictKeys (opt :: rest)
  | _ => Except.ok ()

/-! ## Derived definitions used by the theorems -/

/-- The initial energy read of an attempt: the cached energy when
present, otherwise a fresh evaluation of the unchanged configuration. -/
def initial_energy_of (calcE : MSystem → ℚ) (s : MState) : ℚ :=
  match s.properties.energy with
  | some e => e
  | none => calcE s.system

/-- The tentative type sequence of a swap of sites `i` and `j`. -/
def swapped_types (types : List String) (i j : Nat) : List String :=
  (types.set i (types.getD j "")).set j (types.getD i "")

/-- The energy evaluated after a tentative GCMC relabelling: the
relaxed entry point when `use_relaxed_energies` is set, the plain one
otherwise. -/
def final_energy_of (p : GCMCProto) (calcE relaxedCalcE : MSystem → ℚ) (sys : MSystem) : ℚ :=
  if p.use_relaxed_energies then relaxedCalcE sys else calcE sys

/-- Total number of recorded move outcomes of a grand-canonical protocol. -/
def GCMC_move_total (p : GCMCProto) : Nat :=
  p.accepted_insertions + p.rejected_insertions + p.accepted_removals + p.rejected_removals

/-- Consistency of the grand-canonical vacancy bookkeeping with the
type sequence, relative to the set `V` of pre-existing vacancies: the
sites labelled `"X"` are exactly `V` together with `removed_indices`,
the two parts are disjoint, and the bookkeeping list has no
duplicates. -/
def GCMC_vacancy_consistent (V : Finset Nat) (p : GCMCProto) (s : MState) : Prop :=
  (vacancy_sites s.system.types).toFinset = V ∪ p.removed_indices.toFinset ∧
  V ∩ p.removed_indices.toFinset = ∅ ∧
  p.removed_indices.Nodup

/-! ## Helper lemmas -/



/-! ## Helper lemmas -/

lemma mem_indices_where {pred : String → Bool} :
    ∀ (l : List String) (n i : Nat),
      i ∈ indices_where pred l n ↔ ∃ j a, i = n + j ∧ l.get? j = some a ∧ pred a
  | [], n, i => by simp [indices_where]
  | a :: l, n, i => by
      by_cases hp : pred a
      · rw [indices_where, if_pos hp]
        simp only [List.mem_cons, mem_indices_where l (n + 1) i]
        constructor
        · rintro (rfl | ⟨j, b, rfl, hg, hb⟩)
          · exact ⟨0, a, by omega, rfl, hp⟩
          · exact ⟨j + 1, b, by omega, hg, hb⟩
        · rintro ⟨j, b, rfl, hg, hb⟩
          cases j with
          | zero =>
              left
              simp only [List.get?, Option.some_inj] at hg
              omega
          | succ j => exact Or.inr ⟨j, b, by omega, hg, hb⟩
      · rw [indices_where, if_neg hp]
        rw [mem_indices_where l (n + 1) i]
        constructor
        · rintro ⟨j, b, rfl, hg, hb⟩
          exact ⟨j + 1, b, by omega, hg, hb⟩
        · rintro ⟨j, b, rfl, hg, hb⟩
          cases j with
          | zero =>
              simp only [List.get?, Option.some_inj] at hg
              subst hg
              exact absurd hb hp
          | succ j => exact ⟨j, b, by omega, hg, hb⟩

lemma mem_indices_where_zero {pred : String → Bool} {l : List String} {i : Nat} :
    i ∈ indices_where pred l 0 ↔ ∃ a, l.get? i = some a ∧ pred a := by
  rw [mem_indices_where]
  constructor
  · rintro ⟨j, a, rfl, hg, hp⟩
    exact ⟨a, by simpa using hg, hp⟩
  · rintro ⟨a, hg, hp⟩
    exact ⟨i, a, by omega, hg, hp⟩

lemma swap_search_spec {types : List String} {pairs : Nat → Nat × Nat} :
    ∀ {fuel k ij}, swap_search types pairs k fuel = some ij →
      ∃ t, ij = pairs t ∧ types.get? ij.1 ≠ types.get? ij.2 := by
  intro fuel
  induction fuel with
  | zero => intro k ij h; simp [swap_search] at h
  | succ n ih =>
      intro k ij h
      simp only [swap_search] at h
      split at h
      · next hne =>
          injection h with h'
          subst h'
          exact ⟨k, rfl, hne⟩
      · exact ih h

lemma ASMC_attempt_cases {o : SwapOracle} {calcE : MSystem → ℚ}
    {p p' : ASMCProto} {s s' : MState}
    (h : ASMC_attempt_atomswap o calcE p s = some (p', s')) :
    (swap_search s.system.types o.pairs 0 100 = none ∧
      p' = { p with rejected_swaps := p.rejected_swaps + 1 } ∧ s' = s) ∨
    (∃ i j, swap_search s.system.types o.pairs 0 100 = some (i, j) ∧ o.accept = true ∧
      p' = { p with accepted_swaps := p.accepted_swaps + 1 } ∧
      s' = { s with
        system := { s.system with types := swapped_types s.system.types i j },
        properties := { s.properties with
          energy := some (calcE { s.system with types := swapped_types s.system.types i j }) } }) ∨
    (∃ i j, swap_search s.system.types o.pairs 0 100 = some (i, j) ∧ o.accept = false ∧
      swapped_types s.system.types i j ≠ s.system.types ∧
      p' = { p with rejected_swaps := p.rejected_swaps + 1 } ∧
      s' = { s with properties := { s.properties with
        energy := some (initial_energy_of calcE s) } }) := by
  simp only [ASMC_attempt_atomswap] at h
  split at h
  · exact absurd h (by simp)
  · split at h
    · left
      injection h with h'
      injection h' with h1 h2
      exact ⟨by assumption, h1.symm, h2.symm⟩
    · next i j heq =>
        split at h
        · next hacc =>
            right; left
            injection h with h'
            injection h' with h1 h2
            exact ⟨i, j, heq, hacc, h1.symm, by rw [← h2]; rfl⟩
        · next hacc =>
            split at h
            · exact absurd h (by simp)
            · next hne =>
                right; right
                injection h with h'
                injection h' with h1 h2
                refine ⟨i, j, heq, by simpa using hacc, hne, h1.symm, ?_⟩
                rw [← h2]
                rfl

lemma ASMC_attempt_fields {o : SwapOracle} {calcE : MSystem → ℚ}
    {p p' : ASMCProto} {s s' : MState}
    (h : ASMC_attempt_atomswap o calcE p s = some (p', s')) :
    p'.num_invokes = p.num_invokes ∧
    p'.invoke_every = p.invoke_every ∧
    p'.steps_per_invoke = p.steps_per_invoke ∧
    p'.accepted_swaps + p'.rejected_swaps = p.accepted_swaps + p.rejected_swaps + 1 ∧
    s'.properties.step = s.properties.step ∧
    s'.properties.global_step = s.properties.global_step ∧
    s'.system.positions = s.system.positions := by
  rcases ASMC_attempt_cases h with ⟨_, rfl, rfl⟩ | ⟨i, j, _, _, rfl, rfl⟩ | ⟨i, j, _, _, _, rfl, rfl⟩ <;>
    simp [swapped_types] <;> omega

lemma ceil_div_succ {k : Nat} (hk : 1 ≤ k) (N : Nat) :
    (N + 1 + k - 1) / k = (N + k - 1) / k + (if N % k == 0 then 1 else 0) := by
  obtain ⟨q, r, hr, hN⟩ : ∃ q r, r < k ∧ N = k * q + r :=
    ⟨N / k, N % k, Nat.mod_lt _ hk, (Nat.div_add_mod N k).symm⟩
  subst hN
  have hmod : (k * q + r) % k = r := by
    rw [Nat.mul_add_mod]; exact Nat.mod_eq_of_lt hr
  rw [hmod]
  cases r with
  | zero =>
      have e1 : k * q + 0 + 1 + k - 1 = k * q + k := by omega
      have e2 : k * q + 0 + k - 1 = k * q + (k - 1) := by omega
      rw [e1, e2, Nat.mul_add_div (by omega), Nat.mul_add_div (by omega),
        Nat.div_self (by omega), Nat.div_eq_of_lt (by omega)]
      simp
  | succ r' =>
      have e1 : k * q + (r' + 1) + 1 + k - 1 = k * q + (r' + 1 + k) := by omega
      have e2 : k * q + (r' + 1) + k - 1 = k * q + (r' + k) := by omega
      rw [e1, e2, Nat.mul_add_div (by omega), Nat.mul_add_div (by omega),
        Nat.add_div_right _ (by omega), Nat.add_div_right _ (by omega),
        Nat.div_eq_of_lt hr, Nat.div_eq_of_lt (by omega)]
      simp

lemma GCMC_attempt_removal_cases {o : GCMCOracle} {calcE relaxedCalcE : MSystem → ℚ}
    {p p' : GCMCProto} {s s' : MState}
    (h : GCMC_attempt_removal o calcE relaxedCalcE p s = some (p', s')) :
    ∃ atomic_type, random_choice p.typesList o.species = some atomic_type ∧
      ((indices_where (fun t => t == atomic_type) s.system.types 0 = [] ∧
        p' = { p with rejected_removals := p.rejected_removals + 1 } ∧ s' = s) ∨
       (∃ index,
          random_choice (indices_where (fun t => t == atomic_type) s.system.types 0) o.site
            = some index ∧
          ((o.accept = true ∧
            p' = { p with
              accepted_removals := p.accepted_removals + 1,
              removed_indices := p.removed_indices ++ [index] } ∧
            s' = { s with
              system := { s.system with types := s.system.types.set index "X" },
              properties := { s.properties with
                energy := some (final_energy_of p calcE relaxedCalcE
                  { s.system with types := s.system.types.set index "X" }) } }) ∨
           (o.accept = false ∧ s.system.types.set index "X" ≠ s.system.types ∧
            p' = { p with rejected_removals := p.rejected_removals + 1 } ∧
            s' = { s with properties := { s.properties with
              energy := some (initial_energy_of calcE s) } })))) := by
  simp only [GCMC_attempt_removal] at h
  split at h
  · exact absurd h (by simp)
  · next atomic_type hat =>
      refine ⟨atomic_type, hat, ?_⟩
      split at h
      · next hempty =>
          injection h with h'
          injection h' with h1 h2
          exact Or.inl ⟨by simpa using hempty, h1.symm, h2.symm⟩
      · next hnonempty =>
          split at h
          · exact absurd h (by simp)
          · next index hidx =>
              refine Or.inr ⟨index, hidx, ?_⟩
              split at h
              · next hacc =>
                  injection h with h'
                  injection h' with h1 h2
                  exact Or.inl ⟨hacc, h1.symm, by rw [← h2]; rfl⟩
              · next hacc =>
                  split at h
                  · exact absurd h (by simp)
                  · next hne =>
                      injection h with h'
                      injection h' with h1 h2
                      exact Or.inr ⟨by simpa using hacc, hne, h1.symm, by rw [← h2]; rfl⟩

lemma GCMC_attempt_insertion_cases {o : GCMCOracle} {calcE relaxedCalcE : MSystem → ℚ}
    {p p' : GCMCProto} {s s' : MState}
    (h : GCMC_attempt_insertion o calcE relaxedCalcE p s = some (p', s')) :
    ∃ atomic_type, random_choice p.typesList o.species = some atomic_type ∧
      ((p.removed_indices = [] ∧
        p' = { p with rejected_insertions := p.rejected_insertions + 1 } ∧ s' = s) ∨
       (∃ index, random_choice p.removed_indices o.site = some index ∧
          ((o.accept = true ∧
            p' = { p with
              accepted_insertions := p.accepted_insertions + 1,
              removed_indices := p.removed_indices.erase index } ∧
            s' = { s with
              system := { s.system with types := s.system.types.set index atomic_type },
              properties := { s.properties with
                energy := some (final_energy_of p calcE relaxedCalcE
                  { s.system with types := s.system.types.set index atomic_type }) } }) ∨
           (o.accept = false ∧ s.system.types.set index atomic_type ≠ s.system.types ∧
            p' = { p with rejected_insertions := p.rejected_insertions + 1 } ∧
            s' = { s with properties := { s.properties with
              energy := some (initial_energy_of calcE s) } })))) := by
  simp only [GCMC_attempt_insertion] at h
  split at h
  · exact absurd h (by simp)
  · next atomic_type hat =>
      refine ⟨atomic_type, hat, ?_⟩
      split at h
      · next hempty =>
          injection h with h'
          injection h' with h1 h2
          exact Or.inl ⟨by simpa using hempty, h1.symm, h2.symm⟩
      · next hnonempty =>
          split at h
          · exact absurd h (by simp)
          · next index hidx =>
              refine Or.inr ⟨index, hidx, ?_⟩
              split at h
              · next hacc =>
                  injection h with h'
                  injection h' with h1 h2
                  exact Or.inl ⟨hacc, h1.symm, by rw [← h2]; rfl⟩
              · next hacc =>
                  split at h
                  · exact absurd h (by simp)
                  · next hne =>
                      injection h with h'
                      injection h' with h1 h2
                      exact Or.inr ⟨by simpa using hacc, hne, h1.symm, by rw [← h2]; rfl⟩

lemma GCMC_attempt_removal_fields {o : GCMCOracle} {calcE relaxedCalcE : MSystem → ℚ}
    {p p' : GCMCProto} {s s' : MState}
    (h : GCMC_attempt_removal o calcE relaxedCalcE p s = some (p', s')) :
    GCMC_move_total p' = GCMC_move_total p + 1 ∧
    p'.num_invokes = p.num_invokes ∧
    p'.invoke_every = p.invoke_every ∧
    p'.steps_per_invoke = p.steps_per_invoke ∧
    s'.properties.step = s.properties.step ∧
    s'.properties.global_step = s.properties.global_step ∧
    s'.system.positions = s.system.positions := by
  obtain ⟨a, -, hcase⟩ := GCMC_attempt_removal_cases h
  rcases hcase with ⟨-, rfl, rfl⟩ | ⟨i, -, ⟨-, rfl, rfl⟩ | ⟨-, -, rfl, rfl⟩⟩ <;>
    simp [GCMC_move_total] <;> omega

lemma GCMC_attempt_insertion_fields {o : GCMCOracle} {calcE relaxedCalcE : MSystem → ℚ}
    {p p' : GCMCProto} {s s' : MState}
    (h : GCMC_attempt_insertion o calcE relaxedCalcE p s = some (p', s')) :
    GCMC_move_total p' = GCMC_move_total p + 1 ∧
    p'.num_invokes = p.num_invokes ∧
    p'.invoke_every = p.invoke_every ∧
    p'.steps_per_invoke = p.steps_per_invoke ∧
    s'.properties.step = s.properties.step ∧
    s'.properties.global_step = s.properties.global_step ∧
    s'.system.positions = s.system.positions := by
  obtain ⟨a, -, hcase⟩ := GCMC_attempt_insertion_cases h
  rcases hcase with ⟨-, rfl, rfl⟩ | ⟨i, -, ⟨-, rfl, rfl⟩ | ⟨-, -, rfl, rfl⟩⟩ <;>
    simp [GCMC_move_total] <;> omega

lemma GCMC_step_fields {o : GCMCOracle} {calcE relaxedCalcE : MSystem → ℚ}
    {p p' : GCMCProto} {s s' : MState}
    (h : GCMC_step o calcE relaxedCalcE p s = some (p', s')) :
    GCMC_move_total p' = GCMC_move_total p + 1 ∧
    p'.num_invokes = p.num_invokes + 1 ∧
    p'.invoke_every = p.invoke_every ∧
    p'.steps_per_invoke = p.steps_per_invoke ∧
    s'.properties.step = s.properties.step ∧
    s'.properties.global_step = s.properties.global_step ∧
    s'.system.positions = s.system.positions := by
  simp only [GCMC_step] at h
  split at h
  · exact absurd h (by simp)
  · next p1 s1 heq =>
      injection h with h'
      injection h' with h1 h2
      subst h1 h2
      split at heq
      · obtain ⟨f1, f2, f3, f4, f5, f6, f7⟩ := GCMC_attempt_insertion_fields heq
        exact ⟨by simpa [GCMC_move_total] using f1, by simpa using f2,
          by simpa using f3, by simpa using f4, by simpa using f5,
          by simpa using f6, by simpa using f7⟩
      · obtain ⟨f1, f2, f3, f4, f5, f6, f7⟩ := GCMC_attempt_removal_fields heq
        exact ⟨by simpa [GCMC_move_total] using f1, by simpa using f2,
          by simpa using f3, by simpa using f4, by simpa using f5,
          by simpa using f6, by simpa using f7⟩

lemma GCMC_step_run_fields {stream : Nat → GCMCOracle}
    {calcE relaxedCalcE : MSystem → ℚ} {r r' : GCMCRun}
    (h : GCMC_step_run stream calcE relaxedCalcE r = some r') :
    GCMC_move_total r'.proto = GCMC_move_total r.proto + 1 ∧
    r'.proto.num_invokes = r.proto.num_invokes + 1 ∧
    r'.proto.invoke_every = r.proto.invoke_every ∧
    r'.proto.steps_per_invoke = r.proto.steps_per_invoke ∧
    r'.state.properties.step = r.state.properties.step := by
  simp only [GCMC_step_run] at h
  split at h
  · exact absurd h (by simp)
  · next pr hstep =>
      injection h with h'
      obtain ⟨f1, f2, f3, f4, f5, -, -⟩ := GCMC_step_fields hstep
      subst h'
      exact ⟨f1, f2, f3, f4, f5⟩

lemma GCMC_steps_fields {stream : Nat → GCMCOracle}
    {calcE relaxedCalcE : MSystem → ℚ} :
    ∀ {n : Nat} {r r' : GCMCRun},
      GCMC_steps stream calcE relaxedCalcE n r = some r' →
      GCMC_move_total r'.proto = GCMC_move_total r.proto + n ∧
      r'.proto.num_invokes = r.proto.num_invokes + n ∧
      r'.proto.invoke_every = r.proto.invoke_every ∧
      r'.proto.steps_per_invoke = r.proto.steps_per_invoke ∧
      r'.state.properties.step = r.state.properties.step := by
  intro n
  induction n with
  | zero =>
      intro r r' h
      simp only [GCMC_steps] at h
      injection h with h'
      subst h'
      exact ⟨rfl, rfl, rfl, rfl, rfl⟩
  | succ n ih =>
      intro r r' h
      simp only [GCMC_steps] at h
      split at h
      · exact absurd h (by simp)
      · next r1 heq =>
          obtain ⟨f1, f2, f3, f4, f5⟩ := GCMC_step_run_fields heq
          obtain ⟨g1, g2, g3, g4, g5⟩ := ih h
          exact ⟨by omega, by omega, by rw [g3, f3], by rw [g4, f4], by rw [g5, f5]⟩

lemma random_choice_mem {α : Type} {l : List α} {r : Nat} {a : α}
    (h : random_choice l r = some a) : a ∈ l :=
  List.get?_mem h

lemma mem_vacancy_sites {l : List String} {i : Nat} :
    i ∈ vacancy_sites l ↔ l.get? i = some "X" := by
  rw [vacancy_sites, mem_indices_where_zero]
  constructor
  · rintro ⟨a, hg, ha⟩
    rw [hg]
    simpa using ha
  · intro hg
    exact ⟨"X", hg, by simp⟩

lemma mem_indices_where_eq {l : List String} {t : String} {i : Nat} :
    i ∈ indices_where (fun s => s == t) l 0 ↔ l.get? i = some t := by
  rw [mem_indices_where_zero]
  constructor
  · rintro ⟨a, hg, ha⟩
    rw [hg]
    simpa using ha
  · intro hg
    exact ⟨t, hg, by simp⟩

lemma get?_set_eq' {l : List String} {i : Nat} (h : i < l.length) (b : String) :
    (l.set i b).get? i = some b := by
  rw [List.get?_set]
  simp [List.get?_eq_getElem?, List.getElem?_eq_getElem h]

lemma get?_set_ne' {l : List String} {i j : Nat} (h : i ≠ j) (b : String) :
    (l.set i b).get? j = l.get? j := by
  rw [List.get?_set, if_neg h]

lemma vacancy_toFinset_set_X {l : List String} {i : Nat} (hi : i < l.length) :
    (vacancy_sites (l.set i "X")).toFinset = insert i (vacancy_sites l).toFinset := by
  ext j
  simp only [List.mem_toFinset, mem_vacancy_sites, Finset.mem_insert]
  rcases Nat.decEq i j with hij | hij
  · rw [get?_set_ne' hij]
    constructor
    · exact fun hg => Or.inr hg
    · rintro (rfl | hg)
      · exact absurd rfl hij
      · exact hg
  · subst hij
    rw [get?_set_eq' hi]
    simp

lemma vacancy_toFinset_set_ne {l : List String} {i : Nat} {b : String}
    (hi : i < l.length) (hb : b ≠ "X") :
    (vacancy_sites (l.set i b)).toFinset = (vacancy_sites l).toFinset.erase i := by
  ext j
  simp only [List.mem_toFinset, mem_vacancy_sites, Finset.mem_erase]
  rcases Nat.decEq i j with hij | hij
  · rw [get?_set_ne' hij]
    constructor
    · exact fun hg => ⟨fun hj => hij hj.symm, hg⟩
    · exact fun hg => hg.2
  · subst hij
    rw [get?_set_eq' hi]
    constructor
    · intro hg
      injection hg with hg'
      exact absurd hg' hb
    · rintro ⟨hne, -⟩
      exact absurd rfl hne

lemma toFinset_erase_of_nodup {l : List Nat} (hl : l.Nodup) (a : Nat) :
    (l.erase a).toFinset = l.toFinset.erase a := by
  ext b
  simp only [List.mem_toFinset, Finset.mem_erase]
  rw [List.Nodup.mem_erase_iff hl]

lemma GCMC_removal_preserves_vacancy {o : GCMCOracle} {calcE relaxedCalcE : MSystem → ℚ}
    {p p' : GCMCProto} {s s' : MState} {V : Finset Nat}
    (hX : "X" ∉ p.typesList)
    (hinv : GCMC_vacancy_consistent V p s)
    (h : GCMC_attempt_removal o calcE relaxedCalcE p s = some (p', s')) :
    GCMC_vacancy_consistent V p' s' := by
  obtain ⟨hvac, hdisj, hnodup⟩ := hinv
  obtain ⟨atomic_type, hat, hcase⟩ := GCMC_attempt_removal_cases h
  have hatype : atomic_type ∈ p.typesList := random_choice_mem hat
  have hatX : atomic_type ≠ "X" := fun hEq => hX (hEq ▸ hatype)
  rcases hcase with ⟨-, rfl, rfl⟩ | ⟨index, hidx, ⟨-, rfl, rfl⟩ | ⟨-, -, rfl, rfl⟩⟩
  · exact ⟨hvac, hdisj, hnodup⟩
  · have hmem : index ∈ indices_where (fun t => t == atomic_type) s.system.types 0 :=
      random_choice_mem hidx
    have hget : s.system.types.get? index = some atomic_type := mem_indices_where_eq.mp hmem
    have hlt : index < s.system.types.length := (List.get?_eq_some.mp hget).1
    have hnotvac : index ∉ (vacancy_sites s.system.types).toFinset := by
      simp only [List.mem_toFinset, mem_vacancy_sites, hget]
      intro hc
      injection hc with hc'
      exact hatX hc'
    have hnotV : index ∉ V := fun hc => hnotvac (hvac ▸ Finset.mem_union_left _ hc)
    have hnotR : index ∉ p.removed_indices := by
      intro hc
      exact hnotvac (hvac ▸ Finset.mem_union_right _ (List.mem_toFinset.mpr hc))
    refine ⟨?_, ?_, ?_⟩
    · show (vacancy_sites (s.system.types.set index "X")).toFinset
        = V ∪ (p.removed_indices ++ [index]).toFinset
      rw [vacancy_toFinset_set_X hlt, hvac, List.toFinset_append]
      ext j
      simp only [Finset.mem_insert, Finset.mem_union, List.mem_toFinset, List.mem_singleton]
      tauto
    · show V ∩ (p.removed_indices ++ [index]).toFinset = ∅
      rw [List.toFinset_append]
      ext j
      simp only [Finset.mem_inter, Finset.mem_union, List.mem_toFinset, List.mem_singleton,
        Finset.not_mem_empty, iff_false]
      rintro ⟨hjV, hjR | rfl⟩
      · exact Finset.eq_empty_iff_forall_not_mem.mp hdisj j
          (Finset.mem_inter.mpr ⟨hjV, List.mem_toFinset.mpr hjR⟩)
      · exact hnotV hjV
    · show (p.removed_indices ++ [index]).Nodup
      rw [List.nodup_append]
      exact ⟨hnodup, List.nodup_singleton _, by
        intro a ha hb
        simp only [List.mem_singleton] at hb
        subst hb
        exact hnotR ha⟩
  · exact ⟨hvac, hdisj, hnodup⟩

lemma GCMC_insertion_preserves_vacancy {o : GCMCOracle} {calcE relaxedCalcE : MSystem → ℚ}
    {p p' : GCMCProto} {s s' : MState} {V : Finset Nat}
    (hX : "X" ∉ p.typesList)
    (hinv : GCMC_vacancy_consistent V p s)
    (h : GCMC_attempt_insertion o calcE relaxedCalcE p s = some (p', s')) :
    GCMC_vacancy_consistent V p' s' := by
  obtain ⟨hvac, hdisj, hnodup⟩ := hinv
  obtain ⟨atomic_type, hat, hcase⟩ := GCMC_attempt_insertion_cases h
  have hatype : atomic_type ∈ p.typesList := random_choice_mem hat
  have hatX : atomic_type ≠ "X" := fun hEq => hX (hEq ▸ hatype)
  rcases hcase with ⟨-, rfl, rfl⟩ | ⟨index, hidx, ⟨-, rfl, rfl⟩ | ⟨-, -, rfl, rfl⟩⟩
  · exact ⟨hvac, hdisj, hnodup⟩
  · have hmemR : index ∈ p.removed_indices := random_choice_mem hidx
    have hmemvac : index ∈ (vacancy_sites s.system.types).toFinset := by
      rw [hvac]
      exact Finset.mem_union_right _ (List.mem_toFinset.mpr hmemR)
    have hget : s.system.types.get? index = some "X" := by
      simpa only [List.mem_toFinset, mem_vacancy_sites] using hmemvac
    have hlt : index < s.system.types.length := (List.get?_eq_some.mp hget).1
    have hnotV : index ∉ V := by
      intro hc
      exact Finset.eq_empty_iff_forall_not_mem.mp hdisj index
        (Finset.mem_inter.mpr ⟨hc, List.mem_toFinset.mpr hmemR⟩)
    refine ⟨?_, ?_, ?_⟩
    · show (vacancy_sites (s.system.types.set index atomic_type)).toFinset
        = V ∪ (p.removed_indices.erase index).toFinset
      rw [vacancy_toFinset_set_ne hlt hatX, hvac, toFinset_erase_of_nodup hnodup]
      ext j
      simp only [Finset.mem_erase, Finset.mem_union, List.mem_toFinset]
      constructor
      · rintro ⟨hne, hjV | hjR⟩
        · exact Or.inl hjV
        · exact Or.inr ⟨hne, hjR⟩
      · rintro (hjV | ⟨hne, hjR⟩)
        · refine ⟨?_, Or.inl hjV⟩
          rintro rfl
          exact hnotV hjV
        · exact ⟨hne, Or.inr hjR⟩
    · show V ∩ (p.removed_indices.erase index).toFinset = ∅
      rw [toFinset_erase_of_nodup hnodup]
      ext j
      simp only [Finset.mem_inter, Finset.mem_erase, Finset.not_mem_empty, iff_false]
      rintro ⟨hjV, -, hjR⟩
      exact Finset.eq_empty_iff_forall_not_mem.mp hdisj j (Finset.mem_inter.mpr ⟨hjV, hjR⟩)
    · show (p.removed_indices.erase index).Nodup
      exact List.Nodup.erase _ hnodup
  · exact ⟨hvac, hdisj, hnodup⟩

lemma GCMC_step_preserves_vacancy {o : GCMCOracle} {calcE relaxedCalcE : MSystem → ℚ}
    {p p' : GCMCProto} {s s' : MState} {V : Finset Nat}
    (hX : "X" ∉ p.typesList)
    (hinv : GCMC_vacancy_consistent V p s)
    (h : GCMC_step o calcE relaxedCalcE p s = some (p', s')) :
    GCMC_vacancy_consistent V p' s' := by
  simp only [GCMC_step] at h
  split at h
  · exact absurd h (by simp)
  · next p1 s1 heq =>
      injection h with h'
      injection h' with h1 h2
      subst h1 h2
      split at heq
      · obtain ⟨c1, c2, c3⟩ := GCMC_insertion_preserves_vacancy hX hinv heq
        exact ⟨c1, c2, c3⟩
      · obtain ⟨c1, c2, c3⟩ := GCMC_removal_preserves_vacancy hX hinv heq
        exact ⟨c1, c2, c3⟩

lemma count_set_add :
    ∀ (l : List String) (i : Nat), i < l.length → ∀ (b x : String),
      (l.set i b).count x + (if l.getD i "" = x then 1 else 0)
        = l.count x + (if b = x then 1 else 0)
  | [], i, hi => by simp at hi
  | a :: l, 0, hi => by
      intro b x
      simp only [List.set, List.getD, List.count_cons, List.get?, Option.getD_some, beq_iff_eq]
      split_ifs <;> omega
  | a :: l, i + 1, hi => by
      intro b x
      have ih := count_set_add l i (by simpa using hi) b x
      simp only [List.set, List.count_cons, beq_iff_eq]
      have hD : (a :: l).getD (i + 1) "" = l.getD i "" := rfl
      rw [hD]
      by_cases h1 : l.getD i "" = x <;> by_cases h2 : b = x <;> by_cases h3 : a = x <;>
        simp only [h1, h2, h3, if_true, if_false] at ih ⊢ <;> omega

lemma getD_set_ne {l : List String} {i j : Nat} (h : i ≠ j) (b : String) :
    (l.set i b).getD j "" = l.getD j "" := by
  rw [List.getD_eq_get?, List.getD_eq_get?, get?_set_ne' h]

lemma swapped_types_perm {l : List String} {i j : Nat}
    (hi : i < l.length) (hj : j < l.length) (hij : i ≠ j) :
    (swapped_types l i j).Perm l := by
  rw [List.perm_iff_count]
  intro x
  have h1 := count_set_add l i hi (l.getD j "") x
  have h2 := count_set_add (l.set i (l.getD j "")) j
    (by simpa [List.length_set] using hj) (l.getD i "") x
  rw [getD_set_ne hij] at h2
  have h3 := h2.trans h1
  exact Nat.add_right_cancel h3

lemma iterate_stepF_step {m : PipeModule}
    (hs : ∀ st, (m.stepF st).properties.step = st.properties.step) :
    ∀ (n : Nat) (s : MState), (m.stepF^[n] s).properties.step = s.properties.step := by
  intro n
  induction n with
  | zero => intro s; rfl
  | succ n ih =>
      intro s
      rw [Function.iterate_succ_apply, ih, hs]

lemma iterate_stepF_global {m : PipeModule}
    (hg : ∀ st, (m.stepF st).properties.global_step = st.properties.global_step) :
    ∀ (n : Nat) (s : MState), (m.stepF^[n] s).properties.global_step = s.properties.global_step := by
  intro n
  induction n with
  | zero => intro s; rfl
  | succ n ih =>
      intro s
      rw [Function.iterate_succ_apply, ih, hg]

lemma protocol_evolve_counters {m : PipeModule}
    (hs : ∀ st, (m.stepF st).properties.step = st.properties.step)
    (hg : ∀ st, (m.stepF st).properties.global_step = st.properties.global_step)
    (s : MState) :
    (protocol_evolve m s).properties.step = s.properties.step + 1 ∧
    (protocol_evolve m s).properties.global_step = s.properties.global_step := by
  rw [protocol_evolve]
  split
  · exact ⟨by simp [iterate_stepF_step hs], by simp [iterate_stepF_global hg]⟩
  · exact ⟨rfl, rfl⟩

lemma foldl_evolve_counters :
    ∀ (mods : List PipeModule), (∀ m ∈ mods,
        (∀ st, (m.stepF st).properties.step = st.properties.step) ∧
        (∀ st, (m.stepF st).properties.global_step = st.properties.global_step)) →
      ∀ (s : MState),
        (mods.foldl (fun acc m => protocol_evolve m acc) s).properties.step
          = s.properties.step + mods.length ∧
        (mods.foldl (fun acc m => protocol_evolve m acc) s).properties.global_step
          = s.properties.global_step
  | [], _, s => ⟨rfl, rfl⟩
  | m :: mods, h, s => by
      have hm := h m (List.mem_cons_self m mods)
      have hrest := foldl_evolve_counters mods (fun m' hm' => h m' (List.mem_cons_of_mem m hm'))
        (protocol_evolve m s)
      obtain ⟨e1, e2⟩ := protocol_evolve_counters hm.1 hm.2 s
      simp only [List.foldl_cons, List.length_cons]
      obtain ⟨r1, r2⟩ := hrest
      exact ⟨by rw [r1, e1]; omega, by rw [r2, e2]⟩

lemma pipeline_run_counters :
    ∀ (N : Nat) (mods : List PipeModule), (∀ m ∈ mods,
        (∀ st, (m.stepF st).properties.step = st.properties.step) ∧
        (∀ st, (m.stepF st).properties.global_step = st.properties.global_step)) →
      ∀ (s : MState),
        (pipeline_run mods N s).properties.step = s.properties.step + N * mods.length ∧
        (pipeline_run mods N s).properties.global_step = s.properties.global_step + N
  | 0, mods, _, s => ⟨by simp [pipeline_run], by simp [pipeline_run]⟩
  | N + 1, mods, h, s => by
      rw [pipeline_run]
      obtain ⟨f1, f2⟩ := foldl_evolve_counters mods h s
      obtain ⟨r1, r2⟩ := pipeline_run_counters N mods h _
      constructor
      · rw [r1]
        simp only [f1]
        ring
      · rw [r2]
        simp only [f2]
        omega

lemma exp_neg_le_half {x : ℝ} (hx : 1 ≤ x) : Real.exp (-x) ≤ 1 / 2 := by
  rw [Real.exp_neg]
  have h1 := Real.add_one_le_exp x
  have h2 : (2 : ℝ) ≤ Real.exp x := by linarith
  have h3 : (Real.exp x)⁻¹ ≤ (2 : ℝ)⁻¹ :=
    inv_le_inv_of_le (by norm_num) h2
  linarith

lemma kB_600_le_one : (kB : ℝ) * 600 ≤ 1 ∧ 0 < (kB : ℝ) := by
  have h : (kB : ℝ) = (1380649 : ℝ) / 16021766340 := by
    rw [kB, ase_k, ase_e]
    push_cast
    norm_num
  rw [h]
  norm_num

/-- C1: the two concrete protocols do not share the specified
Boltzmann factor.  The swap protocol's criterion divides the energy
change by `kB * T` as the specification states, but
`OnLatticeGCMC._metropolis_criterion` divides by the bare temperature
`T` with no `kB` factor.  At temperature 600 K, energy change 1 (eV),
chemical potential 0 and uniform draw 1/2, the grand-canonical
criterion accepts (its factor is `exp(-1/600) ≈ 0.998`) while the
specified acceptance rule rejects (its factor is
`exp(-1/(kB·600)) ≈ 4·10⁻⁹`), as does the swap-protocol criterion at
the same energy change. -/
theorem gcmc_metropolis_missing_kB :
    gcmc_metropolis_criterion 600 1 0 (1 / 2) ∧
    ¬ spec_metropolis_acceptance 600 1 0 (1 / 2) ∧
    ¬ asmc_metropolis_criterion 600 1 (1 / 2) := by
  obtain ⟨hle, hpos⟩ := kB_600_le_one
  have hx : 1 ≤ 1 / ((kB : ℝ) * 600) := by
    rw [le_div_iff (by positivity)]
    linarith
  have hhalf : Real.exp (-(1 / ((kB : ℝ) * 600))) ≤ 1 / 2 := exp_neg_le_half hx
  have harg : -((1 : ℝ) - 0) / ((kB : ℝ) * 600) = -(1 / ((kB : ℝ) * 600)) := by
    ring
  refine ⟨?_, ?_, ?_⟩
  · rw [gcmc_metropolis_criterion]
    have h1 := Real.add_one_le_exp (-((1 : ℝ) - 0) / 600)
    have h2 : -((1 : ℝ) - 0) / 600 = -(1 / 600) := by ring
    rw [h2] at h1 ⊢
    linarith
  · rw [spec_metropolis_acceptance, not_lt, harg]
    have hmin : min 1 (Real.exp (-(1 / ((kB : ℝ) * 600)))) ≤ Real.exp (-(1 / ((kB : ℝ) * 600))) :=
      min_le_right _ _
    linarith
  · rw [asmc_metropolis_criterion, if_neg (by norm_num), not_lt]
    have harg2 : -(1 : ℝ) / ((kB : ℝ) * 600) = -(1 / ((kB : ℝ) * 600)) := by
      ring
    rw [harg2]
    linarith

/-- C8: for the swap protocol, every energy change `ΔE ≤ 0` is
accepted for every value of the uniform draw in `[0,1)`: a strictly
negative `ΔE` returns `True` before any draw, and at `ΔE = 0` the
Boltzmann factor is `exp 0 = 1`, above every draw below one. -/
theorem asmc_nonpositive_dE_always_accepted
    (temperature dE rand : ℝ) (h0 : 0 ≤ rand) (h1 : rand < 1) (hdE : dE ≤ 0) :
    asmc_metropolis_criterion temperature dE rand := by
  rw [asmc_metropolis_criterion]
  split
  · trivial
  · next hneg =>
      have hz : dE = 0 := le_antisymm hdE (not_lt.mp hneg)
      subst hz
      simp only [neg_zero, zero_div, Real.exp_zero]
      exact h1

/-- Witness for C8 at the boundary case `ΔE = 0`, `T = 600`, draw 1/2. -/
theorem asmc_nonpositive_dE_always_accepted_witness :
    (0 : ℝ) ≤ 1 / 2 ∧ (1 / 2 : ℝ) < 1 ∧ (0 : ℝ) ≤ 0 ∧
      asmc_metropolis_criterion 600 0 (1 / 2) :=
  ⟨by norm_num, by norm_num, le_refl 0,
    asmc_nonpositive_dE_always_accepted 600 0 (1 / 2) (by norm_num) (by norm_num) (le_refl 0)⟩

/-- Counterexample to C2: a swap attempt whose cached energy was
absent (`None`) before the attempt and which is rejected by the
Metropolis draw does not restore `None` — it stores the freshly
computed energy of the restored configuration (here 5). -/
theorem asmc_reject_materializes_energy :
    ASMC_attempt_atomswap ⟨fun _ => (0, 1), false⟩
        (fun sys => if sys.types = ["A", "B"] then 5 else 7)
        ⟨"asmc", 600, ["A", "B"], 1, 1, 0, 0, 0⟩
        ⟨⟨[(0, 0, 0), (1, 0, 0)], ["A", "B"]⟩, ⟨0, 0, 600, none⟩⟩
      = some (⟨"asmc", 600, ["A", "B"], 1, 1, 0, 0, 1⟩,
          ⟨⟨[(0, 0, 0), (1, 0, 0)], ["A", "B"]⟩, ⟨0, 0, 600, some 5⟩⟩) ∧
    (⟨⟨[(0, 0, 0), (1, 0, 0)], ["A", "B"]⟩, ⟨0, 0, 600, none⟩⟩ : MState).properties.energy
      = none ∧
    some (5 : ℚ) ≠ (none : Option ℚ) := by
  refine ⟨by decide, rfl, by decide⟩

/-- C2 as amended: every rejected move attempt (swap, removal or
insertion) leaves `system.types` and `system.positions` — indeed the
whole `system` mapping — exactly as they were, and restores the cached
energy verbatim whenever it was present before the attempt; when it
was absent, the attempt leaves it either absent (rejections that occur
before any energy evaluation) or equal to the freshly computed energy
of the unchanged pre-attempt configuration (Metropolis rejections). -/
theorem rejected_attempt_revert_exact :
    (∀ (o : SwapOracle) (calcE : MSystem → ℚ) (p p' : ASMCProto) (s s' : MState),
      ASMC_attempt_atomswap o calcE p s = some (p', s') →
      p'.rejected_swaps = p.rejected_swaps + 1 →
      s'.system = s.system ∧
      (∀ e, s.properties.energy = some e → s'.properties.energy = some e) ∧
      (s.properties.energy = none →
        s'.properties.energy = none ∨ s'.properties.energy = some (calcE s.system))) ∧
    (∀ (o : GCMCOracle) (calcE relaxedCalcE : MSystem → ℚ) (p p' : GCMCProto) (s s' : MState),
      GCMC_attempt_removal o calcE relaxedCalcE p s = some (p', s') →
      p'.rejected_removals = p.rejected_removals + 1 →
      s'.system = s.system ∧
      (∀ e, s.properties.energy = some e → s'.properties.energy = some e) ∧
      (s.properties.energy = none →
        s'.properties.energy = none ∨ s'.properties.energy = some (calcE s.system))) ∧
    (∀ (o : GCMCOracle) (calcE relaxedCalcE : MSystem → ℚ) (p p' : GCMCProto) (s s' : MState),
      GCMC_attempt_insertion o calcE relaxedCalcE p s = some (p', s') →
      p'.rejected_insertions = p.rejected_insertions + 1 →
      s'.system = s.system ∧
      (∀ e, s.properties.energy = some e → s'.properties.energy = some e) ∧
      (s.properties.energy = none →
        s'.properties.energy = none ∨ s'.properties.energy = some (calcE s.system))) := by
  refine ⟨?_, ?_, ?_⟩
  · intro o calcE p s p' s' h hrej
    rcases ASMC_attempt_cases h with ⟨-, rfl, rfl⟩ | ⟨i, j, -, -, rfl, rfl⟩ | ⟨i, j, -, -, -, rfl, rfl⟩
    · exact ⟨rfl, fun e he => he, fun hn => Or.inl hn⟩
    · exact absurd hrej (by simp)
    · refine ⟨rfl, ?_, ?_⟩
      · intro e he
        simp [initial_energy_of, he]
      · intro hn
        exact Or.inr (by simp [initial_energy_of, hn])
  · intro o calcE relaxedCalcE p s p' s' h hrej
    obtain ⟨a, -, hcase⟩ := GCMC_attempt_removal_cases h
    rcases hcase with ⟨-, rfl, rfl⟩ | ⟨i, -, ⟨-, rfl, rfl⟩ | ⟨-, -, rfl, rfl⟩⟩
    · exact ⟨rfl, fun e he => he, fun hn => Or.inl hn⟩
    · exact absurd hrej (by simp)
    · refine ⟨rfl, ?_, ?_⟩
      · intro e he
        simp [initial_energy_of, he]
      · intro hn
        exact Or.inr (by simp [initial_energy_of, hn])
  · intro o calcE relaxedCalcE p s p' s' h hrej
    obtain ⟨a, -, hcase⟩ := GCMC_attempt_insertion_cases h
    rcases hcase with ⟨-, rfl, rfl⟩ | ⟨i, -, ⟨-, rfl, rfl⟩ | ⟨-, -, rfl, rfl⟩⟩
    · exact ⟨rfl, fun e he => he, fun hn => Or.inl hn⟩
    · exact absurd hrej (by simp)
    · refine ⟨rfl, ?_, ?_⟩
      · intro e he
        simp [initial_energy_of, he]
      · intro hn
        exact Or.inr (by simp [initial_energy_of, hn])

/-- Witness for C2 (amended): concrete Metropolis-rejected swap,
removal and insertion attempts, exercising both the absent-energy and
the cached-energy clauses. -/
theorem rejected_attempt_revert_exact_witness :
    ((⟨⟨[(0, 0, 0), (1, 0, 0)], ["A", "B"]⟩, ⟨0, 0, 600, some 5⟩⟩ : MState).properties.energy
        = none ∨
      (⟨⟨[(0, 0, 0), (1, 0, 0)], ["A", "B"]⟩, ⟨0, 0, 600, some 5⟩⟩ : MState).properties.energy
        = some ((fun sys => if sys.types = ["A", "B"] then (5 : ℚ) else 7)
            (⟨⟨[(0, 0, 0), (1, 0, 0)], ["A", "B"]⟩, ⟨0, 0, 600, none⟩⟩ : MState).system)) ∧
    ((⟨⟨[(0, 0, 0)], ["O"]⟩, ⟨0, 0, 600, some 2⟩⟩ : MState).system
        = (⟨⟨[(0, 0, 0)], ["O"]⟩, ⟨0, 0, 600, some 2⟩⟩ : MState).system ∧
      (⟨⟨[(0, 0, 0)], ["O"]⟩, ⟨0, 0, 600, some 2⟩⟩ : MState).properties.energy = some 2) ∧
    ((⟨⟨[(0, 0, 0)], ["X"]⟩, ⟨0, 0, 600, some 4⟩⟩ : MState).system
        = (⟨⟨[(0, 0, 0)], ["X"]⟩, ⟨0, 0, 600, some 4⟩⟩ : MState).system ∧
      (⟨⟨[(0, 0, 0)], ["X"]⟩, ⟨0, 0, 600, some 4⟩⟩ : MState).properties.energy = some 4) :=
  ⟨(rejected_attempt_revert_exact.1 ⟨fun _ => (0, 1), false⟩
      (fun sys => if sys.types = ["A", "B"] then (5 : ℚ) else 7)
      ⟨"asmc", 600, ["A", "B"], 1, 1, 0, 0, 0⟩ ⟨"asmc", 600, ["A", "B"], 1, 1, 0, 0, 1⟩
      ⟨⟨[(0, 0, 0), (1, 0, 0)], ["A", "B"]⟩, ⟨0, 0, 600, none⟩⟩
      ⟨⟨[(0, 0, 0), (1, 0, 0)], ["A", "B"]⟩, ⟨0, 0, 600, some 5⟩⟩
      (by decide) (by decide)).2.2 rfl,
   ⟨(rejected_attempt_revert_exact.2.1 ⟨false, 0, 0, false⟩ (fun _ => 0) (fun _ => 0)
      ⟨600, [("O", -1)], false, 1, 1, 0, 0, 0, 0, 0, []⟩
      ⟨600, [("O", -1)], false, 1, 1, 0, 0, 0, 0, 1, []⟩
      ⟨⟨[(0, 0, 0)], ["O"]⟩, ⟨0, 0, 600, some 2⟩⟩
      ⟨⟨[(0, 0, 0)], ["O"]⟩, ⟨0, 0, 600, some 2⟩⟩
      (by decide) (by decide)).1,
    (rejected_attempt_revert_exact.2.1 ⟨false, 0, 0, false⟩ (fun _ => 0) (fun _ => 0)
      ⟨600, [("O", -1)], false, 1, 1, 0, 0, 0, 0, 0, []⟩
      ⟨600, [("O", -1)], false, 1, 1, 0, 0, 0, 0, 1, []⟩
      ⟨⟨[(0, 0, 0)], ["O"]⟩, ⟨0, 0, 600, some 2⟩⟩
      ⟨⟨[(0, 0, 0)], ["O"]⟩, ⟨0, 0, 600, some 2⟩⟩
      (by decide) (by decide)).2.1 2 rfl⟩,
   ⟨(rejected_attempt_revert_exact.2.2 ⟨true, 0, 0, false⟩ (fun _ => 0) (fun _ => 0)
      ⟨600, [("O", -1)], false, 1, 1, 0, 0, 0, 0, 0, [0]⟩
      ⟨600, [("O", -1)], false, 1, 1, 0, 0, 1, 0, 0, [0]⟩
      ⟨⟨[(0, 0, 0)], ["X"]⟩, ⟨0, 0, 600, some 4⟩⟩
      ⟨⟨[(0, 0, 0)], ["X"]⟩, ⟨0, 0, 600, some 4⟩⟩
      (by decide) (by decide)).1,
    (rejected_attempt_revert_exact.2.2 ⟨true, 0, 0, false⟩ (fun _ => 0) (fun _ => 0)
      ⟨600, [("O", -1)], false, 1, 1, 0, 0, 0, 0, 0, [0]⟩
      ⟨600, [("O", -1)], false, 1, 1, 0, 0, 1, 0, 0, [0]⟩
      ⟨⟨[(0, 0, 0)], ["X"]⟩, ⟨0, 0, 600, some 4⟩⟩
      ⟨⟨[(0, 0, 0)], ["X"]⟩, ⟨0, 0, 600, some 4⟩⟩
      (by decide) (by decide)).2.1 4 rfl⟩⟩

/-- Counterexample to C4: a configuration that already contains a
vacant site (label `"X"`) at `initialize` time.  `initialize` accepts
it and resets `removed_indices` to the empty list, and after a step
(here an insertion attempt, rejected because the bookkeeping list is
empty) the set of `"X"`-labelled sites is `{0}` while the protocol's
bookkeeping set is empty. -/
theorem gcmc_preexisting_vacancy_mismatch :
    GCMC_init ⟨600, [("O", -1)], false, 1, 1, 0, 0, 0, 0, 0, [5]⟩
        ⟨⟨[(0, 0, 0), (1, 0, 0)], ["X", "O"]⟩, ⟨0, 0, 600, none⟩⟩
      = some ⟨600, [("O", -1)], false, 1, 1, 0, 0, 0, 0, 0, []⟩ ∧
    GCMC_step ⟨true, 0, 0, true⟩ (fun _ => 0) (fun _ => 0)
        ⟨600, [("O", -1)], false, 1, 1, 0, 0, 0, 0, 0, []⟩
        ⟨⟨[(0, 0, 0), (1, 0, 0)], ["X", "O"]⟩, ⟨0, 0, 600, none⟩⟩
      = some (⟨600, [("O", -1)], false, 1, 1, 1, 0, 1, 0, 0, []⟩,
          ⟨⟨[(0, 0, 0), (1, 0, 0)], ["X", "O"]⟩, ⟨0, 0, 600, none⟩⟩) ∧
    vacancy_sites ["X", "O"] = [0] ∧
    (vacancy_sites ["X", "O"]).toFinset ≠ ([] : List Nat).toFinset := by
  exact ⟨by decide, by decide, by decide, by decide⟩

/-- C4 as amended: relative to the set `V` of pre-existing vacancies,
every `OnLatticeGCMC.step` (accepted or rejected, provided the
vacancy placeholder is not itself a tracked species) preserves the
invariant that the `"X"`-labelled sites are exactly
`V ∪ removed_indices` with the two parts disjoint and the bookkeeping
duplicate-free; and `initialize` establishes that invariant with
`V = ∅` exactly when the initial configuration has no vacant sites.
The claim's equality `{i : types[i] = "X"} = removed_indices` is the
`V = ∅` case, and fails when vacancies pre-exist
(`gcmc_preexisting_vacancy_mismatch`). -/
theorem gcmc_vacancy_bookkeeping_invariant :
    (∀ (o : GCMCOracle) (calcE relaxedCalcE : MSystem → ℚ)
        (p p' : GCMCProto) (s s' : MState) (V : Finset Nat),
      "X" ∉ p.typesList →
      GCMC_vacancy_consistent V p s →
      GCMC_step o calcE relaxedCalcE p s = some (p', s') →
      GCMC_vacancy_consistent V p' s') ∧
    (∀ (p p1 : GCMCProto) (s : MState),
      GCMC_init p s = some p1 →
      vacancy_sites s.system.types = [] →
      GCMC_vacancy_consistent ∅ p1 s) := by
  constructor
  · intro o calcE relaxedCalcE p p' s s' V hX hinv h
    exact GCMC_step_preserves_vacancy hX hinv h
  · intro p p1 s h hempty
    rw [GCMC_init] at h
    split at h
    · injection h with h'
      subst h'
      refine ⟨?_, ?_, ?_⟩
      · rw [hempty]
        simp
      · simp
      · simp
    · exact absurd h (by simp)

/-- Witness for C4 (amended): an accepted removal on a vacancy-free
two-site lattice establishes and preserves the invariant with
`V = ∅`. -/
theorem gcmc_vacancy_bookkeeping_invariant_witness :
    GCMC_vacancy_consistent ∅
      ⟨600, [("O", -1)], false, 1, 1, 1, 0, 0, 1, 0, [0]⟩
      ⟨⟨[(0, 0, 0), (1, 0, 0)], ["X", "O"]⟩, ⟨0, 0, 600, some 0⟩⟩ ∧
    GCMC_vacancy_consistent ∅
      ⟨600, [("O", -1)], false, 1, 1, 0, 0, 0, 0, 0, []⟩
      ⟨⟨[(0, 0, 0), (1, 0, 0)], ["O", "O"]⟩, ⟨0, 0, 600, none⟩⟩ :=
  ⟨gcmc_vacancy_bookkeeping_invariant.1 ⟨false, 0, 0, true⟩ (fun _ => 0) (fun _ => 0)
      ⟨600, [("O", -1)], false, 1, 1, 0, 0, 0, 0, 0, []⟩
      ⟨600, [("O", -1)], false, 1, 1, 1, 0, 0, 1, 0, [0]⟩
      ⟨⟨[(0, 0, 0), (1, 0, 0)], ["O", "O"]⟩, ⟨0, 0, 600, none⟩⟩
      ⟨⟨[(0, 0, 0), (1, 0, 0)], ["X", "O"]⟩, ⟨0, 0, 600, some 0⟩⟩
      ∅ (by decide)
      (by unfold GCMC_vacancy_consistent; exact ⟨by decide, by decide, by decide⟩)
      (by decide),
   gcmc_vacancy_bookkeeping_invariant.2
      ⟨600, [("O", -1)], false, 1, 1, 0, 0, 0, 0, 0, [7]⟩
      ⟨600, [("O", -1)], false, 1, 1, 0, 0, 0, 0, 0, []⟩
      ⟨⟨[(0, 0, 0), (1, 0, 0)], ["O", "O"]⟩, ⟨0, 0, 600, none⟩⟩
      (by decide) (by decide)⟩

/-- C6: the logging-field check.  A requested field outside the fixed
base set raises a `KeyError` from `_print_logging_header` (which
indexes `BASE_LOGGING_OPTIONS_DICT` directly) before the `ValueError`
validation loop is reached — even when the field is a perfectly valid
module metric name such as `module.asmc.accepted_swaps`; only
base-set-only requests construct without raising. -/
theorem pipeline_logging_keyerror_before_validation :
    pipeline_initialize_logging [] (some ["bogus"])
      = Except.error (PyErr.keyError "bogus") ∧
    pipeline_initialize_logging
        (ASMC_get_log_options ⟨"asmc", 600, ["A", "B"], 1, 1, 0, 0, 0⟩)
        (some ["module.asmc.accepted_swaps"])
      = Except.error (PyErr.keyError "module.asmc.accepted_swaps") ∧
    pipeline_initialize_logging [] (some ["properties.step", "properties.energy"])
      = Except.ok () := by
  exact ⟨rfl, rfl, rfl⟩

/-- Counterexample to C7: with a single eligible site (one atom of a
declared type), `np.random.choice(allowed_indices, size=2,
replace=False)` cannot draw a pair and raises, rather than recording a
rejected attempt. -/
theorem asmc_single_eligible_site_raises :
    ASMC_attempt_atomswap ⟨fun _ => (0, 1), true⟩ (fun _ => 0)
        ⟨"asmc", 600, ["A", "B"], 1, 1, 0, 0, 0⟩
        ⟨⟨[(0, 0, 0)], ["A"]⟩, ⟨0, 0, 600, none⟩⟩
      = none := by
  decide

/-- C7 as amended: when at least two eligible sites exist and the
100 drawn pairs all carry equal labels (retry exhaustion — in
particular whenever the eligible sites all share one label), the
attempt increments `rejected_swaps` and returns with the state
untouched, no energy evaluation (the result does not depend on the
calculator) and no exception; with fewer than two eligible sites the
draw itself raises instead (`asmc_single_eligible_site_raises`). -/
theorem asmc_retry_exhaustion_rejected
    (o : SwapOracle) (calcE : MSystem → ℚ) (p : ASMCProto) (s : MState)
    (h2 : 2 ≤ (indices_where (fun sym => p.types.contains sym) s.system.types 0).length)
    (hsearch : swap_search s.system.types o.pairs 0 100 = none) :
    ASMC_attempt_atomswap o calcE p s
      = some ({ p with rejected_swaps := p.rejected_swaps + 1 }, s) := by
  rw [ASMC_attempt_atomswap, if_neg (by omega), hsearch]

/-- Witness for C7 (amended): two eligible sites, both labelled `A`;
every draw returns the pair `(0, 1)` with equal labels, so the budget
is exhausted and the attempt is recorded as rejected with the state
unchanged. -/
theorem asmc_retry_exhaustion_rejected_witness :
    ASMC_attempt_atomswap ⟨fun _ => (0, 1), true⟩ (fun _ => 37)
        ⟨"asmc", 600, ["A", "B"], 1, 1, 0, 0, 0⟩
        ⟨⟨[(0, 0, 0), (1, 0, 0)], ["A", "A"]⟩, ⟨0, 0, 600, none⟩⟩
      = some (⟨"asmc", 600, ["A", "B"], 1, 1, 0, 0, 1⟩,
          ⟨⟨[(0, 0, 0), (1, 0, 0)], ["A", "A"]⟩, ⟨0, 0, 600, none⟩⟩) :=
  asmc_retry_exhaustion_rejected ⟨fun _ => (0, 1), true⟩ (fun _ => 37)
    ⟨"asmc", 600, ["A", "B"], 1, 1, 0, 0, 0⟩
    ⟨⟨[(0, 0, 0), (1, 0, 0)], ["A", "A"]⟩, ⟨0, 0, 600, none⟩⟩
    (by decide) (by decide)

lemma ASMC_step_fields {o : SwapOracle} {calcE : MSystem → ℚ}
    {p p' : ASMCProto} {s s' : MState}
    (h : ASMC_step o calcE p s = ASMCStepOutcome.typeError p' s') :
    p'.num_invokes = p.num_invokes + 1 ∧
    p'.invoke_every = p.invoke_every ∧
    p'.steps_per_invoke = p.steps_per_invoke ∧
    p'.accepted_swaps + p'.rejected_swaps = p.accepted_swaps + p.rejected_swaps + 1 ∧
    s'.properties.step = s.properties.step ∧
    s'.properties.global_step = s.properties.global_step ∧
    s'.system.positions = s.system.positions := by
  simp only [ASMC_step] at h
  split at h
  · exact absurd h (by simp)
  · next p1 s1 heq =>
      injection h with h1 h2
      obtain ⟨f1, f2, f3, f4, f5, f6, f7⟩ := ASMC_attempt_fields heq
      subst h1 h2
      exact ⟨by simp [f1], by simpa using f2, by simpa using f3, by simpa using f4,
        f5, f6, f7⟩

lemma ASMC_evolve_firing_raises {stream : Nat → SwapOracle} {calcE : MSystem → ℚ}
    {r : ASMCRun}
    (hfire : (r.state.properties.step % r.proto.invoke_every == 0) = true)
    (hm : 1 ≤ r.proto.steps_per_invoke) :
    (∀ r', ASMC_evolve stream calcE r ≠ ASMCEvolveOutcome.completed r') ∧
    (∀ r', ASMC_evolve stream calcE r = ASMCEvolveOutcome.raisedTypeError r' →
      r'.state.properties.step = r.state.properties.step ∧
      r'.proto.num_invokes = r.proto.num_invokes + 1 ∧
      r'.proto.accepted_swaps + r'.proto.rejected_swaps
        = r.proto.accepted_swaps + r.proto.rejected_swaps + 1) := by
  rw [ASMC_evolve, if_pos hfire]
  rcases hspi : r.proto.steps_per_invoke with _ | n
  · omega
  · cases hstep : ASMC_step (stream r.k) calcE r.proto r.state with
    | attemptError =>
        exact ⟨fun r' hc => by simp at hc, fun r' hc => by simp at hc⟩
    | typeError p1 s1 =>
        obtain ⟨f1, -, -, f4, f5, -, -⟩ := ASMC_step_fields hstep
        refine ⟨fun r' hc => by simp at hc, fun r' hc => ?_⟩
        simp only [ASMCEvolveOutcome.raisedTypeError.injEq] at hc
        subst hc
        exact ⟨f5, f1, f4⟩

lemma GCMC_evolve_fields {stream : Nat → GCMCOracle}
    {calcE relaxedCalcE : MSystem → ℚ} {r r' : GCMCRun}
    (h : GCMC_evolve stream calcE relaxedCalcE r = some r') :
    r'.state.properties.step = r.state.properties.step + 1 ∧
    r'.proto.invoke_every = r.proto.invoke_every ∧
    r'.proto.steps_per_invoke = r.proto.steps_per_invoke ∧
    r'.proto.num_invokes = r.proto.num_invokes +
      (if r.state.properties.step % r.proto.invoke_every == 0
       then r.proto.steps_per_invoke else 0) := by
  simp only [GCMC_evolve] at h
  split at h
  · exact absurd h (by simp)
  · next r1 heq =>
      injection h with h'
      subst h'
      split at heq
      · next hfire =>
          obtain ⟨-, f2, f3, f4, f5⟩ := GCMC_steps_fields heq
          simp only [hfire, if_true]
          exact ⟨by simp [f5], by simpa using f3, by simpa using f4, by simpa using f2⟩
      · next hfire =>
          injection heq with h2
          subst h2
          simp [hfire]

lemma GCMC_evolveN_snoc {stream : Nat → GCMCOracle}
    {calcE relaxedCalcE : MSystem → ℚ} :
    ∀ (N : Nat) (r : GCMCRun),
      GCMC_evolveN stream calcE relaxedCalcE (N + 1) r
        = (GCMC_evolveN stream calcE relaxedCalcE N r).bind
            (GCMC_evolve stream calcE relaxedCalcE) := by
  intro N
  induction N with
  | zero =>
      intro r
      cases h : GCMC_evolve stream calcE relaxedCalcE r <;>
        simp [GCMC_evolveN, h]
  | succ n ih =>
      intro r
      rw [GCMC_evolveN]
      conv_rhs => rw [GCMC_evolveN]
      split
      · rfl
      · next r1 h => exact ih r1

lemma GCMC_evolveN_fields {stream : Nat → GCMCOracle}
    {calcE relaxedCalcE : MSystem → ℚ} :
    ∀ {N : Nat} {r r' : GCMCRun},
      GCMC_evolveN stream calcE relaxedCalcE N r = some r' →
      r'.state.properties.step = r.state.properties.step + N ∧
      r'.proto.invoke_every = r.proto.invoke_every ∧
      r'.proto.steps_per_invoke = r.proto.steps_per_invoke := by
  intro N
  induction N with
  | zero =>
      intro r r' h
      simp only [GCMC_evolveN] at h
      injection h with h'
      subst h'
      exact ⟨rfl, rfl, rfl⟩
  | succ n ih =>
      intro r r' h
      rw [GCMC_evolveN] at h
      split at h
      · exact absurd h (by simp)
      · next r1 heq =>
          obtain ⟨f1, f2, f3, -⟩ := GCMC_evolve_fields heq
          obtain ⟨g1, g2, g3⟩ := ih h
          exact ⟨by omega, by rw [g2, f2], by rw [g3, f3]⟩

lemma GCMC_evolveN_num_invokes {stream : Nat → GCMCOracle}
    {calcE relaxedCalcE : MSystem → ℚ} :
    ∀ {N : Nat} {r r' : GCMCRun},
      GCMC_evolveN stream calcE relaxedCalcE N r = some r' →
      1 ≤ r.proto.invoke_every → r.state.properties.step = 0 →
      r'.proto.num_invokes = r.proto.num_invokes +
        r.proto.steps_per_invoke *
          ((N + r.proto.invoke_every - 1) / r.proto.invoke_every) := by
  intro N
  induction N with
  | zero =>
      intro r r' h hk h0
      simp only [GCMC_evolveN] at h
      injection h with h'
      subst h'
      rw [Nat.div_eq_of_lt (by omega)]
      simp
  | succ n ih =>
      intro r r' h hk h0
      rw [GCMC_evolveN_snoc] at h
      rcases hmid : GCMC_evolveN stream calcE relaxedCalcE n r with _ | rN
      · rw [hmid] at h; exact absurd h (by simp)
      · rw [hmid] at h
        simp only [Option.bind] at h
        obtain ⟨s1, s2, s3⟩ := GCMC_evolveN_fields hmid
        obtain ⟨e1, e2, e3, e4⟩ := GCMC_evolve_fields h
        have hstep : rN.state.properties.step = n := by omega
        have hnum := ih hmid hk h0
        rw [e4, hnum, hstep, s2, s3, ceil_div_succ hk n]
        rcases Nat.decEq (n % r.proto.invoke_every) 0 with hmod | hmod
        · simp only [Nat.mul_add]
          have hb : (n % r.proto.invoke_every == 0) = false := by
            simpa using hmod
          rw [hb]
          simp
        · have hb : (n % r.proto.invoke_every == 0) = true := by
            simpa using hmod
          rw [hb]
          simp [Nat.mul_add]
          omega

/-- Counterexample to C3: with `invoke_every = 2`, `steps_per_invoke
= 1` and a single `evolve` call (`N = 1`) starting from `step = 0`,
the grand-canonical protocol performs one inner step (the 0-based
counter fires at 0), while the claimed count is `m * floor(N/k) = 1 *
(1 / 2) = 0`; and the same single `evolve` call of the checked-in
swap protocol raises `TypeError` inside `step` (after the attempt and
the `num_invokes` increment, with the shared counter still 0), so its
claimed evolve sequences never complete at all. -/
theorem evolve_invokes_on_step_zero :
    (GCMC_evolveN (fun _ => ⟨false, 0, 0, true⟩) (fun _ => 0) (fun _ => 0) 1
        ⟨⟨600, [("O", -1)], false, 2, 1, 0, 0, 0, 0, 0, []⟩,
         ⟨⟨[(0, 0, 0), (1, 0, 0)], ["O", "O"]⟩, ⟨0, 0, 600, none⟩⟩, 0⟩).map
      (fun r => r.proto.num_invokes) = some 1 ∧
    1 * ((1 : Nat) / 2) = 0 ∧
    ASMC_evolve (fun _ => ⟨fun _ => (0, 1), true⟩) (fun _ => 0)
        ⟨⟨"asmc", 600, ["A", "B"], 2, 1, 0, 0, 0⟩,
         ⟨⟨[(0, 0, 0), (1, 0, 0)], ["A", "B"]⟩, ⟨0, 0, 600, none⟩⟩, 0⟩
      = ASMCEvolveOutcome.raisedTypeError
          ⟨⟨"asmc", 600, ["A", "B"], 2, 1, 1, 1, 0⟩,
           ⟨⟨[(0, 0, 0), (1, 0, 0)], ["B", "A"]⟩, ⟨0, 0, 600, some 0⟩⟩, 1⟩ := by
  exact ⟨by decide, rfl, by decide⟩

/-- C3 as amended: the scheduling contract holds, in ceiling form,
for the protocol whose `step` completes.  For the grand-canonical
protocol with `invoke_every = k ≥ 1` and `steps_per_invoke = m`, `N`
completed `evolve` calls on a state starting at `step = 0` perform
exactly `m * ceil(N/k)` inner `step` calls — here `ceil(N/k) =
(N + k - 1) / k` in natural division; the 0-based counter fires on
steps 0, k, 2k, … — and `num_invokes` counts exactly the completed
inner calls, so it equals that count.  For the checked-in
`AtomSwapMonteCarlo`, no firing `evolve` call can complete: its
`step` always raises `TypeError` at the trailing
`state.update(modules=...)` export, aborting `evolve` after exactly
one attempt and one `num_invokes` increment, before the shared
counter advances. -/
theorem gcmc_evolveN_num_invokes_ceil :
    (∀ (stream : Nat → GCMCOracle) (calcE relaxedCalcE : MSystem → ℚ)
        (N : Nat) (r r' : GCMCRun),
      1 ≤ r.proto.invoke_every →
      r.state.properties.step = 0 →
      r.proto.num_invokes = 0 →
      GCMC_evolveN stream calcE relaxedCalcE N r = some r' →
      r'.proto.num_invokes
        = r.proto.steps_per_invoke *
            ((N + r.proto.invoke_every - 1) / r.proto.invoke_every)) ∧
    (∀ (stream : Nat → SwapOracle) (calcE : MSystem → ℚ) (r : ASMCRun),
      (r.state.properties.step % r.proto.invoke_every == 0) = true →
      1 ≤ r.proto.steps_per_invoke →
      (∀ r', ASMC_evolve stream calcE r ≠ ASMCEvolveOutcome.completed r') ∧
      (∀ r', ASMC_evolve stream calcE r = ASMCEvolveOutcome.raisedTypeError r' →
        r'.state.properties.step = r.state.properties.step ∧
        r'.proto.num_invokes = r.proto.num_invokes + 1)) := by
  constructor
  · intro stream calcE relaxedCalcE N r r' hk h0 hn h
    have hmain := GCMC_evolveN_num_invokes h hk h0
    rw [hn] at hmain
    simpa using hmain
  · intro stream calcE r hfire hm
    obtain ⟨h1, h2⟩ := ASMC_evolve_firing_raises hfire hm
    exact ⟨h1, fun r' hc => ⟨(h2 r' hc).1, (h2 r' hc).2.1⟩⟩

/-- Witness for C3 (amended): `k = 2`, `m = 1`, `N = 3` gives the
grand-canonical protocol `num_invokes = 1 * ceil(3/2) = 2`, and a
concrete firing swap-protocol `evolve` aborts with the counter
unchanged. -/
theorem gcmc_evolveN_num_invokes_ceil_witness :
    (⟨⟨600, [("O", -1)], false, 2, 1, 2, 0, 0, 2, 0, [0, 1]⟩,
      ⟨⟨[(0, 0, 0), (1, 0, 0)], ["X", "X"]⟩, ⟨3, 0, 600, some 0⟩⟩, 2⟩ : GCMCRun).proto.num_invokes
      = 1 * ((3 + 2 - 1) / 2) ∧
    ASMC_evolve (fun _ => ⟨fun _ => (0, 1), true⟩) (fun _ => 0)
        ⟨⟨"asmc", 600, ["A", "B"], 2, 1, 0, 0, 0⟩,
         ⟨⟨[(0, 0, 0), (1, 0, 0)], ["A", "B"]⟩, ⟨0, 0, 600, none⟩⟩, 0⟩
      ≠ ASMCEvolveOutcome.completed
          ⟨⟨"asmc", 600, ["A", "B"], 2, 1, 0, 0, 0⟩,
           ⟨⟨[(0, 0, 0), (1, 0, 0)], ["A", "B"]⟩, ⟨0, 1, 600, none⟩⟩, 0⟩ ∧
    ((⟨⟨"asmc", 600, ["A", "B"], 2, 1, 1, 1, 0⟩,
       ⟨⟨[(0, 0, 0), (1, 0, 0)], ["B", "A"]⟩, ⟨0, 0, 600, some 0⟩⟩, 1⟩ : ASMCRun).state.properties.step
        = 0 ∧
     (⟨⟨"asmc", 600, ["A", "B"], 2, 1, 1, 1, 0⟩,
       ⟨⟨[(0, 0, 0), (1, 0, 0)], ["B", "A"]⟩, ⟨0, 0, 600, some 0⟩⟩, 1⟩ : ASMCRun).proto.num_invokes
        = 0 + 1) :=
  ⟨gcmc_evolveN_num_invokes_ceil.1 (fun _ => ⟨false, 0, 0, true⟩) (fun _ => 0) (fun _ => 0) 3
      ⟨⟨600, [("O", -1)], false, 2, 1, 0, 0, 0, 0, 0, []⟩,
       ⟨⟨[(0, 0, 0), (1, 0, 0)], ["O", "O"]⟩, ⟨0, 0, 600, none⟩⟩, 0⟩
      ⟨⟨600, [("O", -1)], false, 2, 1, 2, 0, 0, 2, 0, [0, 1]⟩,
       ⟨⟨[(0, 0, 0), (1, 0, 0)], ["X", "X"]⟩, ⟨3, 0, 600, some 0⟩⟩, 2⟩
      (by decide) rfl rfl (by decide),
   (gcmc_evolveN_num_invokes_ceil.2 (fun _ => ⟨fun _ => (0, 1), true⟩) (fun _ => 0)
      ⟨⟨"asmc", 600, ["A", "B"], 2, 1, 0, 0, 0⟩,
       ⟨⟨[(0, 0, 0), (1, 0, 0)], ["A", "B"]⟩, ⟨0, 0, 600, none⟩⟩, 0⟩
      (by decide) (by decide)).1
      ⟨⟨"asmc", 600, ["A", "B"], 2, 1, 0, 0, 0⟩,
       ⟨⟨[(0, 0, 0), (1, 0, 0)], ["A", "B"]⟩, ⟨0, 1, 600, none⟩⟩, 0⟩,
   (gcmc_evolveN_num_invokes_ceil.2 (fun _ => ⟨fun _ => (0, 1), true⟩) (fun _ => 0)
      ⟨⟨"asmc", 600, ["A", "B"], 2, 1, 0, 0, 0⟩,
       ⟨⟨[(0, 0, 0), (1, 0, 0)], ["A", "B"]⟩, ⟨0, 0, 600, none⟩⟩, 0⟩
      (by decide) (by decide)).2
      ⟨⟨"asmc", 600, ["A", "B"], 2, 1, 1, 1, 0⟩,
       ⟨⟨[(0, 0, 0), (1, 0, 0)], ["B", "A"]⟩, ⟨0, 0, 600, some 0⟩⟩, 1⟩
      (by decide)⟩

/-- C5: counter conservation, against the checked-in code.  The first
conjunct evaluates the swap protocol's `step` at a concrete input:
the call records its outcome (`accepted_swaps = 1`, so the counters
sum to one) and increments `num_invokes`, but then raises `TypeError`
at the `state.update(modules=...)` export, so under the program's own
drivers no sequence of `n` completed swap `step` calls exists.  The
second conjunct shows the conservation logic itself is intact: every
swap `step` call that reaches the raising export has recorded exactly
one outcome.  The third conjunct is the grand-canonical half of the
claim, whose `step` completes: any `n` completed calls increase the
four-way counter total by exactly `n`. -/
theorem swap_step_typeerror_counter_conservation :
    ASMC_step ⟨fun _ => (0, 1), true⟩ (fun _ => 0)
        ⟨"asmc", 600, ["A", "B"], 1, 1, 0, 0, 0⟩
        ⟨⟨[(0, 0, 0), (1, 0, 0)], ["A", "B"]⟩, ⟨0, 0, 600, none⟩⟩
      = ASMCStepOutcome.typeError ⟨"asmc", 600, ["A", "B"], 1, 1, 1, 1, 0⟩
          ⟨⟨[(0, 0, 0), (1, 0, 0)], ["B", "A"]⟩, ⟨0, 0, 600, some 0⟩⟩ ∧
    (∀ (o : SwapOracle) (calcE : MSystem → ℚ) (p p' : ASMCProto) (s s' : MState),
      ASMC_step o calcE p s = ASMCStepOutcome.typeError p' s' →
      p'.accepted_swaps + p'.rejected_swaps = p.accepted_swaps + p.rejected_swaps + 1 ∧
      p'.num_invokes = p.num_invokes + 1) ∧
    (∀ (stream : Nat → GCMCOracle) (calcE relaxedCalcE : MSystem → ℚ)
        (n : Nat) (r r' : GCMCRun),
      GCMC_steps stream calcE relaxedCalcE n r = some r' →
      GCMC_move_total r'.proto = GCMC_move_total r.proto + n) := by
  refine ⟨by decide, ?_, ?_⟩
  · intro o calcE p p' s s' h
    obtain ⟨f1, -, -, f4, -, -, -⟩ := ASMC_step_fields h
    exact ⟨f4, f1⟩
  · intro stream calcE relaxedCalcE n r r' h
    exact (GCMC_steps_fields h).1

/-- Witness for C5: the per-call conservation conjunct at a concrete
raising swap step, and the grand-canonical conjunct at a completed
two-step run (two rejected insertions). -/
theorem swap_step_typeerror_counter_conservation_witness :
    ((⟨"asmc", 600, ["A", "B"], 1, 1, 1, 1, 0⟩ : ASMCProto).accepted_swaps
        + (⟨"asmc", 600, ["A", "B"], 1, 1, 1, 1, 0⟩ : ASMCProto).rejected_swaps
      = 0 + 0 + 1 ∧
     (⟨"asmc", 600, ["A", "B"], 1, 1, 1, 1, 0⟩ : ASMCProto).num_invokes = 0 + 1) ∧
    GCMC_move_total (⟨600, [("O", -1)], false, 1, 1, 2, 0, 2, 0, 0, []⟩ : GCMCProto)
      = GCMC_move_total (⟨600, [("O", -1)], false, 1, 1, 0, 0, 0, 0, 0, []⟩ : GCMCProto) + 2 :=
  ⟨swap_step_typeerror_counter_conservation.2.1 ⟨fun _ => (0, 1), true⟩ (fun _ => 0)
      ⟨"asmc", 600, ["A", "B"], 1, 1, 0, 0, 0⟩ ⟨"asmc", 600, ["A", "B"], 1, 1, 1, 1, 0⟩
      ⟨⟨[(0, 0, 0), (1, 0, 0)], ["A", "B"]⟩, ⟨0, 0, 600, none⟩⟩
      ⟨⟨[(0, 0, 0), (1, 0, 0)], ["B", "A"]⟩, ⟨0, 0, 600, some 0⟩⟩ (by decide),
   swap_step_typeerror_counter_conservation.2.2 (fun _ => ⟨true, 0, 0, true⟩)
      (fun _ => 0) (fun _ => 0) 2
      ⟨⟨600, [("O", -1)], false, 1, 1, 0, 0, 0, 0, 0, []⟩,
       ⟨⟨[(0, 0, 0)], ["O"]⟩, ⟨0, 0, 600, none⟩⟩, 0⟩
      ⟨⟨600, [("O", -1)], false, 1, 1, 2, 0, 2, 0, 0, []⟩,
       ⟨⟨[(0, 0, 0)], ["O"]⟩, ⟨0, 0, 600, none⟩⟩, 2⟩ (by decide)⟩

/-- C9: every `AtomSwapMonteCarlo.step` call whose attempt completes
— accepted, rejected, or abandoned by retry exhaustion (the call then
raises `TypeError` at the trailing counter export, leaving exactly
these mutations behind) — permutes (or leaves unchanged) the label
sequence, so the multiset of chemical labels is conserved; positions
are never touched, and the invariant `len(types) = len(positions)` is
preserved.  The hypothesis on `o.pairs` is the `np.random.choice`
contract: each drawn pair consists of two distinct members of the
eligible index set. -/
theorem asmc_step_preserves_composition
    (o : SwapOracle) (calcE : MSystem → ℚ) (p p' : ASMCProto) (s s' : MState)
    (hvalid : ∀ k,
      (o.pairs k).1 ∈ indices_where (fun sym => p.types.contains sym) s.system.types 0 ∧
      (o.pairs k).2 ∈ indices_where (fun sym => p.types.contains sym) s.system.types 0 ∧
      (o.pairs k).1 ≠ (o.pairs k).2)
    (h : ASMC_step o calcE p s = ASMCStepOutcome.typeError p' s') :
    s'.system.types.Perm s.system.types ∧
    s'.system.positions = s.system.positions ∧
    (s.system.types.length = s.system.positions.length →
      s'.system.types.length = s'.system.positions.length) := by
  simp only [ASMC_step] at h
  split at h
  · exact absurd h (by simp)
  · next p1 s1 heq =>
      injection h with h1 h2
      subst h1 h2
      rcases ASMC_attempt_cases heq with ⟨-, rfl, rfl⟩ |
        ⟨i, j, hsearch, -, rfl, rfl⟩ | ⟨i, j, -, -, -, rfl, rfl⟩
      · exact ⟨List.Perm.refl _, rfl, fun hl => hl⟩
      · obtain ⟨t, hij, -⟩ := swap_search_spec hsearch
        have hv := hvalid t
        rw [← hij] at hv
        obtain ⟨hiMem, hjMem, hij'⟩ := hv
        obtain ⟨a, hga, -⟩ := mem_indices_where_zero.mp hiMem
        obtain ⟨b, hgb, -⟩ := mem_indices_where_zero.mp hjMem
        have hi : i < s.system.types.length := (List.get?_eq_some.mp hga).1
        have hj : j < s.system.types.length := (List.get?_eq_some.mp hgb).1
        have hperm : (swapped_types s.system.types i j).Perm s.system.types :=
          swapped_types_perm hi hj hij'
        refine ⟨hperm, rfl, ?_⟩
        intro hl
        simpa [hperm.length_eq] using hl
      · exact ⟨List.Perm.refl _, rfl, fun hl => hl⟩

/-- Witness for C9: an accepted swap on the two-site `A`/`B` lattice
turns the labels into `["B", "A"]`, a permutation of `["A", "B"]`. -/
theorem asmc_step_preserves_composition_witness :
    (["B", "A"] : List String).Perm ["A", "B"] ∧
    ([(0, 0, 0), (1, 0, 0)] : List (ℚ × ℚ × ℚ)) = [(0, 0, 0), (1, 0, 0)] ∧
    ((["A", "B"] : List String).length = ([(0, 0, 0), (1, 0, 0)] : List (ℚ × ℚ × ℚ)).length →
      (["B", "A"] : List String).length = ([(0, 0, 0), (1, 0, 0)] : List (ℚ × ℚ × ℚ)).length) :=
  asmc_step_preserves_composition ⟨fun _ => (0, 1), true⟩ (fun _ => 0)
    ⟨"asmc", 600, ["A", "B"], 1, 1, 0, 0, 0⟩ ⟨"asmc", 600, ["A", "B"], 1, 1, 1, 1, 0⟩
    ⟨⟨[(0, 0, 0), (1, 0, 0)], ["A", "B"]⟩, ⟨0, 0, 600, none⟩⟩
    ⟨⟨[(0, 0, 0), (1, 0, 0)], ["B", "A"]⟩, ⟨0, 0, 600, some 0⟩⟩
    (fun _ =>
      show (0 : Nat) ∈ indices_where (fun sym => (["A", "B"] : List String).contains sym) ["A", "B"] 0 ∧
          (1 : Nat) ∈ indices_where (fun sym => (["A", "B"] : List String).contains sym) ["A", "B"] 0 ∧
          (0 : Nat) ≠ 1
        from ⟨by decide, by decide, by decide⟩) (by decide)

/-- Counterexample to C10: a firing `evolve` call of the checked-in
swap protocol does not increment the shared `properties.step` counter
by one — the inner `step` raises `TypeError` at the
`state.update(modules=...)` export and `evolve` aborts before its
`properties["step"] += 1` line, leaving the counter at 0. -/
theorem asmc_firing_evolve_aborts :
    ASMC_evolve (fun _ => ⟨fun _ => (0, 1), true⟩) (fun _ => 0)
        ⟨⟨"asmc", 600, ["A", "B"], 1, 1, 0, 0, 0⟩,
         ⟨⟨[(0, 0, 0), (1, 0, 0)], ["A", "B"]⟩, ⟨0, 0, 600, none⟩⟩, 0⟩
      = ASMCEvolveOutcome.raisedTypeError
          ⟨⟨"asmc", 600, ["A", "B"], 1, 1, 1, 1, 0⟩,
           ⟨⟨[(0, 0, 0), (1, 0, 0)], ["B", "A"]⟩, ⟨0, 0, 600, some 0⟩⟩, 1⟩ ∧
    (⟨⟨[(0, 0, 0), (1, 0, 0)], ["B", "A"]⟩, ⟨0, 0, 600, some 0⟩⟩ : MState).properties.step = 0 ∧
    (0 : Nat) ≠ 0 + 1 := by
  exact ⟨by decide, rfl, by decide⟩

/-- C10 as amended: `Protocol.evolve` increments the shared
`properties.step` counter by one on every call that completes, so
`Pipeline.run(N)` over `P` modules whose step actions return normally
and leave both counters alone (as the grand-canonical protocol's step
does, fourth conjunct) advances `properties.step` by `N * P` and
`properties.global_step` by `N`, with each `invoke_every` test
reading the shared counter as already advanced by earlier `evolve`
calls (`protocol_evolve` tests `s.properties.step % invoke_every` on
the state as earlier modules left it).  The checked-in swap
protocol's step actions also leave both counters alone (third
conjunct), but its firing `evolve` calls never complete (fifth
conjunct): they raise before the increment, so the advance does not
extend to a pipeline containing a firing `AtomSwapMonteCarlo`
(`asmc_firing_evolve_aborts`). -/
theorem pipeline_counter_advance :
    (∀ (mods : List PipeModule),
      (∀ m ∈ mods,
        (∀ st, (m.stepF st).properties.step = st.properties.step) ∧
        (∀ st, (m.stepF st).properties.global_step = st.properties.global_step)) →
      ∀ (N : Nat) (s : MState),
        (pipeline_run mods N s).properties.step = s.properties.step + N * mods.length ∧
        (pipeline_run mods N s).properties.global_step = s.properties.global_step + N) ∧
    (∀ (m : PipeModule) (s : MState),
      (∀ st, (m.stepF st).properties.step = st.properties.step) →
      (∀ st, (m.stepF st).properties.global_step = st.properties.global_step) →
      (protocol_evolve m s).properties.step = s.properties.step + 1) ∧
    (∀ (o : SwapOracle) (calcE : MSystem → ℚ) (p p' : ASMCProto) (s s' : MState),
      ASMC_step o calcE p s = ASMCStepOutcome.typeError p' s' →
      s'.properties.step = s.properties.step ∧
      s'.properties.global_step = s.properties.global_step) ∧
    (∀ (o : GCMCOracle) (calcE relaxedCalcE : MSystem → ℚ)
        (p p' : GCMCProto) (s s' : MState),
      GCMC_step o calcE relaxedCalcE p s = some (p', s') →
      s'.properties.step = s.properties.step ∧
      s'.properties.global_step = s.properties.global_step) ∧
    (∀ (stream : Nat → SwapOracle) (calcE : MSystem → ℚ) (r : ASMCRun),
      (r.state.properties.step % r.proto.invoke_every == 0) = true →
      1 ≤ r.proto.steps_per_invoke →
      ∀ r', ASMC_evolve stream calcE r ≠ ASMCEvolveOutcome.completed r') := by
  refine ⟨?_, ?_, ?_, ?_, ?_⟩
  · intro mods h N s
    exact pipeline_run_counters N mods h s
  · intro m s hs hg
    exact (protocol_evolve_counters hs hg s).1
  · intro o calcE p p' s s' h
    obtain ⟨-, -, -, -, f5, f6, -⟩ := ASMC_step_fields h
    exact ⟨f5, f6⟩
  · intro o calcE relaxedCalcE p p' s s' h
    obtain ⟨-, -, -, -, f5, f6, -⟩ := GCMC_step_fields h
    exact ⟨f5, f6⟩
  · intro stream calcE r hfire hm
    exact (ASMC_evolve_firing_raises hfire hm).1

/-- Witness for C10 (amended): a two-iteration pipeline over one
identity-step module, an `evolve` of that module, concrete swap and
grand-canonical steps whose left-behind states preserve both
counters, and a concrete firing swap `evolve` that does not
complete. -/
theorem pipeline_counter_advance_witness :
    ((pipeline_run [⟨1, 1, id⟩] 2
        ⟨⟨[], []⟩, ⟨0, 0, 600, none⟩⟩).properties.step = 0 + 2 * 1 ∧
     (pipeline_run [⟨1, 1, id⟩] 2
        ⟨⟨[], []⟩, ⟨0, 0, 600, none⟩⟩).properties.global_step = 0 + 2) ∧
    (protocol_evolve ⟨1, 1, id⟩
        ⟨⟨[], []⟩, ⟨0, 0, 600, none⟩⟩).properties.step = 0 + 1 ∧
    ((⟨⟨[(0, 0, 0), (1, 0, 0)], ["B", "A"]⟩, ⟨0, 0, 600, some 0⟩⟩ : MState).properties.step
        = (⟨⟨[(0, 0, 0), (1, 0, 0)], ["A", "B"]⟩, ⟨0, 0, 600, none⟩⟩ : MState).properties.step ∧
     (⟨⟨[(0, 0, 0), (1, 0, 0)], ["B", "A"]⟩, ⟨0, 0, 600, some 0⟩⟩ : MState).properties.global_step
        = (⟨⟨[(0, 0, 0), (1, 0, 0)], ["A", "B"]⟩, ⟨0, 0, 600, none⟩⟩ : MState).properties.global_step) ∧
    ((⟨⟨[(0, 0, 0), (1, 0, 0)], ["X", "O"]⟩, ⟨0, 0, 600, some 0⟩⟩ : MState).properties.step
        = (⟨⟨[(0, 0, 0), (1, 0, 0)], ["O", "O"]⟩, ⟨0, 0, 600, none⟩⟩ : MState).properties.step ∧
     (⟨⟨[(0, 0, 0), (1, 0, 0)], ["X", "O"]⟩, ⟨0, 0, 600, some 0⟩⟩ : MState).properties.global_step
        = (⟨⟨[(0, 0, 0), (1, 0, 0)], ["O", "O"]⟩, ⟨0, 0, 600, none⟩⟩ : MState).properties.global_step) ∧
    ASMC_evolve (fun _ => ⟨fun _ => (0, 1), true⟩) (fun _ => 0)
        ⟨⟨"asmc", 600, ["A", "B"], 1, 1, 0, 0, 0⟩,
         ⟨⟨[(0, 0, 0), (1, 0, 0)], ["A", "B"]⟩, ⟨0, 0, 600, none⟩⟩, 0⟩
      ≠ ASMCEvolveOutcome.completed
          ⟨⟨"asmc", 600, ["A", "B"], 1, 1, 0, 0, 0⟩,
           ⟨⟨[(0, 0, 0), (1, 0, 0)], ["A", "B"]⟩, ⟨1, 0, 600, none⟩⟩, 0⟩ :=
  ⟨pipeline_counter_advance.1 [⟨1, 1, id⟩]
      (fun m hm => by
        simp only [List.mem_singleton] at hm
        subst hm
        exact ⟨fun st => rfl, fun st => rfl⟩) 2
      ⟨⟨[], []⟩, ⟨0, 0, 600, none⟩⟩,
   pipeline_counter_advance.2.1 ⟨1, 1, id⟩
      ⟨⟨[], []⟩, ⟨0, 0, 600, none⟩⟩ (fun st => rfl) (fun st => rfl),
   pipeline_counter_advance.2.2.1 ⟨fun _ => (0, 1), true⟩ (fun _ => 0)
      ⟨"asmc", 600, ["A", "B"], 1, 1, 0, 0, 0⟩ ⟨"asmc", 600, ["A", "B"], 1, 1, 1, 1, 0⟩
      ⟨⟨[(0, 0, 0), (1, 0, 0)], ["A", "B"]⟩, ⟨0, 0, 600, none⟩⟩
      ⟨⟨[(0, 0, 0), (1, 0, 0)], ["B", "A"]⟩, ⟨0, 0, 600, some 0⟩⟩ (by decide),
   pipeline_counter_advance.2.2.2.1 ⟨false, 0, 0, true⟩ (fun _ => 0) (fun _ => 0)
      ⟨600, [("O", -1)], false, 1, 1, 0, 0, 0, 0, 0, []⟩
      ⟨600, [("O", -1)], false, 1, 1, 1, 0, 0, 1, 0, [0]⟩
      ⟨⟨[(0, 0, 0), (1, 0, 0)], ["O", "O"]⟩, ⟨0, 0, 600, none⟩⟩
      ⟨⟨[(0, 0, 0), (1, 0, 0)], ["X", "O"]⟩, ⟨0, 0, 600, some 0⟩⟩ (by decide),
   pipeline_counter_advance.2.2.2.2 (fun _ => ⟨fun _ => (0, 1), true⟩) (fun _ => 0)
      ⟨⟨"asmc", 600, ["A", "B"], 1, 1, 0, 0, 0⟩,
       ⟨⟨[(0, 0, 0), (1, 0, 0)], ["A", "B"]⟩, ⟨0, 0, 600, none⟩⟩, 0⟩
      (by decide) (by decide)
      ⟨⟨"asmc", 600, ["A", "B"], 1, 1, 0, 0, 0⟩,
       ⟨⟨[(0, 0, 0), (1, 0, 0)], ["A", "B"]⟩, ⟨1, 0, 600, none⟩⟩, 0⟩⟩
